import Mathlib

/-!
Verification of the `json_decoder` package (`src/json_decoder/decoder.py`)
against its natural-language specification.

The decoder is a hand-written recursive-descent JSON parser operating on a
Python `str`.  A Python `str` is a sequence of Unicode code points (which,
unlike Lean's `String`, may contain lone surrogates, e.g. produced by the
decoder's `\uXXXX` escape handling), so input and output text is modelled as
`List Nat` of code points.

The file has three parts:
1. models of the Python built-in predicates and conversions the source uses
   (`str.isspace`, `str.isdigit`, `str.isnumeric`, `int(...)`, `float(...)`,
   `int(..., base=16)`);
2. a shallow embedding of `decoder.py` itself (`decode`, `parseOne`,
   `objLoop`, `arrLoop`, `parseStringFn`, `parseNumberFn`, `parseLiteralFn`);
3. a reference decoder modelled from the specification's restricted grammar
   (§6) with the trusted reference (`json.loads`) value semantics, and the
   theorems settling the claims.
-/

/-- Convert a Lean string literal to the code-point sequence of the
corresponding Python `str`. -/
def pyStr (s : String) : List Nat := s.data.map Char.toNat

/-! ## Part 1: models of Python built-ins -/

/-- Python's per-character `str.isspace`: the exact set of code points CPython
reports as whitespace (Unicode Zs/Zl/Zp plus bidirectional classes WS, B, S). -/
def pyIsSpace (c : Nat) : Bool :=
  (9 ≤ c && c ≤ 13) || (28 ≤ c && c ≤ 32) || c == 0x85 || c == 0xA0 ||
  c == 0x1680 || (0x2000 ≤ c && c ≤ 0x200A) || c == 0x2028 || c == 0x2029 ||
  c == 0x202F || c == 0x205F || c == 0x3000

/-- First code points of the 66 ranges of ten consecutive decimal digits
(category Nd) of Unicode 14.0.0, the database of CPython 3.11. -/
def ndStarts : List Nat :=
  [0x30, 0x660, 0x6F0, 0x7C0, 0x966, 0x9E6,
   0xA66, 0xAE6, 0xB66, 0xBE6, 0xC66, 0xCE6,
   0xD66, 0xDE6, 0xE50, 0xED0, 0xF20, 0x1040,
   0x1090, 0x17E0, 0x1810, 0x1946, 0x19D0, 0x1A80,
   0x1A90, 0x1B50, 0x1BB0, 0x1C40, 0x1C50, 0xA620,
   0xA8D0, 0xA900, 0xA9D0, 0xA9F0, 0xAA50, 0xABF0,
   0xFF10, 0x104A0, 0x10D30, 0x11066, 0x110F0, 0x11136,
   0x111D0, 0x112F0, 0x11450, 0x114D0, 0x11650, 0x116C0,
   0x11730, 0x118E0, 0x11950, 0x11C50, 0x11D50, 0x11DA0,
   0x16A60, 0x16AC0, 0x16B50, 0x1D7CE, 0x1D7D8, 0x1D7E2,
   0x1D7EC, 0x1D7F6, 0x1E140, 0x1E2F0, 0x1E950, 0x1FBF0]

/-- Decimal value of a Unicode decimal digit (category Nd), as used by
Python's `int()`/`float()` conversions and as the Nd part of
`str.isdigit`: the digit's offset in its range; `none` for every code point
outside the 66 Nd ranges. -/
def pyNdVal (c : Nat) : Option Nat :=
  (ndStarts.find? (fun lo => lo ≤ c && c ≤ lo + 9)).map (fun lo => c - lo)

/-- Code points with the Unicode digit property that are *not* decimal
digits: these satisfy Python's `str.isdigit` but are rejected by `int()`.
The exact `isdigit`-minus-Nd set of Unicode 14.0.0 (superscripts,
subscripts, circled and parenthesized digits, Ethiopic and other
non-decimal digits). -/
def pyDigitOther (c : Nat) : Bool :=
  (0xB2 ≤ c && c ≤ 0xB3) ||
    c == 0xB9 ||
    (0x1369 ≤ c && c ≤ 0x1371) ||
    c == 0x19DA ||
    c == 0x2070 ||
    (0x2074 ≤ c && c ≤ 0x2079) ||
    (0x2080 ≤ c && c ≤ 0x2089) ||
    (0x2460 ≤ c && c ≤ 0x2468) ||
    (0x2474 ≤ c && c ≤ 0x247C) ||
    (0x2488 ≤ c && c ≤ 0x2490) ||
    c == 0x24EA ||
    (0x24F5 ≤ c && c ≤ 0x24FD) ||
    c == 0x24FF ||
    (0x2776 ≤ c && c ≤ 0x277E) ||
    (0x2780 ≤ c && c ≤ 0x2788) ||
    (0x278A ≤ c && c ≤ 0x2792) ||
    (0x10A40 ≤ c && c ≤ 0x10A43) ||
    (0x10E60 ≤ c && c ≤ 0x10E68) ||
    (0x11052 ≤ c && c ≤ 0x1105A) ||
    (0x1F100 ≤ c && c ≤ 0x1F10A)

/-- Python's per-character `str.isdigit`: true for decimal digits (Nd) and
for digit-property characters such as `²` (U+00B2). -/
def pyIsDigit (c : Nat) : Bool :=
  (pyNdVal c).isSome || pyDigitOther c

/-- Code points satisfying Python's `str.isnumeric` but not `str.isdigit`:
the exact set of Unicode 14.0.0 (vulgar fractions, Roman numerals, CJK
numerals, and other Numeric_Type=Numeric characters). -/
def pyNumericOther (c : Nat) : Bool :=
  (0xBC ≤ c && c ≤ 0xBE) ||
    (0x9F4 ≤ c && c ≤ 0x9F9) ||
    (0xB72 ≤ c && c ≤ 0xB77) ||
    (0xBF0 ≤ c && c ≤ 0xBF2) ||
    (0xC78 ≤ c && c ≤ 0xC7E) ||
    (0xD58 ≤ c && c ≤ 0xD5E) ||
    (0xD70 ≤ c && c ≤ 0xD78) ||
    (0xF2A ≤ c && c ≤ 0xF33) ||
    (0x1372 ≤ c && c ≤ 0x137C) ||
    (0x16EE ≤ c && c ≤ 0x16F0) ||
    (0x17F0 ≤ c && c ≤ 0x17F9) ||
    (0x2150 ≤ c && c ≤ 0x2182) ||
    (0x2185 ≤ c && c ≤ 0x2189) ||
    (0x2469 ≤ c && c ≤ 0x2473) ||
    (0x247D ≤ c && c ≤ 0x2487) ||
    (0x2491 ≤ c && c ≤ 0x249B) ||
    (0x24EB ≤ c && c ≤ 0x24F4) ||
    c == 0x24FE ||
    c == 0x277F ||
    c == 0x2789 ||
    c == 0x2793 ||
    c == 0x2CFD ||
    c == 0x3007 ||
    (0x3021 ≤ c && c ≤ 0x3029) ||
    (0x3038 ≤ c && c ≤ 0x303A) ||
    (0x3192 ≤ c && c ≤ 0x3195) ||
    (0x3220 ≤ c && c ≤ 0x3229) ||
    (0x3248 ≤ c && c ≤ 0x324F) ||
    (0x3251 ≤ c && c ≤ 0x325F) ||
    (0x3280 ≤ c && c ≤ 0x3289) ||
    (0x32B1 ≤ c && c ≤ 0x32BF) ||
    c == 0x3405 ||
    c == 0x3483 ||
    c == 0x382A ||
    c == 0x3B4D ||
    c == 0x4E00 ||
    c == 0x4E03 ||
    c == 0x4E07 ||
    c == 0x4E09 ||
    c == 0x4E5D ||
    c == 0x4E8C ||
    c == 0x4E94 ||
    c == 0x4E96 ||
    (0x4EBF ≤ c && c ≤ 0x4EC0) ||
    c == 0x4EDF ||
    c == 0x4EE8 ||
    c == 0x4F0D ||
    c == 0x4F70 ||
    c == 0x5104 ||
    c == 0x5146 ||
    c == 0x5169 ||
    c == 0x516B ||
    c == 0x516D ||
    c == 0x5341 ||
    (0x5343 ≤ c && c ≤ 0x5345) ||
    c == 0x534C ||
    (0x53C1 ≤ c && c ≤ 0x53C4) ||
    c == 0x56DB ||
    c == 0x58F1 ||
    c == 0x58F9 ||
    c == 0x5E7A ||
    (0x5EFE ≤ c && c ≤ 0x5EFF) ||
    (0x5F0C ≤ c && c ≤ 0x5F0E) ||
    c == 0x5F10 ||
    c == 0x62FE ||
    c == 0x634C ||
    c == 0x67D2 ||
    c == 0x6F06 ||
    c == 0x7396 ||
    c == 0x767E ||
    c == 0x8086 ||
    c == 0x842C ||
    c == 0x8CAE ||
    c == 0x8CB3 ||
    c == 0x8D30 ||
    c == 0x9621 ||
    c == 0x9646 ||
    c == 0x964C ||
    c == 0x9678 ||
    c == 0x96F6 ||
    (0xA6E6 ≤ c && c ≤ 0xA6EF) ||
    (0xA830 ≤ c && c ≤ 0xA835) ||
    c == 0xF96B ||
    c == 0xF973 ||
    c == 0xF978 ||
    c == 0xF9B2 ||
    c == 0xF9D1 ||
    c == 0xF9D3 ||
    c == 0xF9FD ||
    (0x10107 ≤ c && c ≤ 0x10133) ||
    (0x10140 ≤ c && c ≤ 0x10178) ||
    (0x1018A ≤ c && c ≤ 0x1018B) ||
    (0x102E1 ≤ c && c ≤ 0x102FB) ||
    (0x10320 ≤ c && c ≤ 0x10323) ||
    c == 0x10341 ||
    c == 0x1034A ||
    (0x103D1 ≤ c && c ≤ 0x103D5) ||
    (0x10858 ≤ c && c ≤ 0x1085F) ||
    (0x10879 ≤ c && c ≤ 0x1087F) ||
    (0x108A7 ≤ c && c ≤ 0x108AF) ||
    (0x108FB ≤ c && c ≤ 0x108FF) ||
    (0x10916 ≤ c && c ≤ 0x1091B) ||
    (0x109BC ≤ c && c ≤ 0x109BD) ||
    (0x109C0 ≤ c && c ≤ 0x109CF) ||
    (0x109D2 ≤ c && c ≤ 0x109FF) ||
    (0x10A44 ≤ c && c ≤ 0x10A48) ||
    (0x10A7D ≤ c && c ≤ 0x10A7E) ||
    (0x10A9D ≤ c && c ≤ 0x10A9F) ||
    (0x10AEB ≤ c && c ≤ 0x10AEF) ||
    (0x10B58 ≤ c && c ≤ 0x10B5F) ||
    (0x10B78 ≤ c && c ≤ 0x10B7F) ||
    (0x10BA9 ≤ c && c ≤ 0x10BAF) ||
    (0x10CFA ≤ c && c ≤ 0x10CFF) ||
    (0x10E69 ≤ c && c ≤ 0x10E7E) ||
    (0x10F1D ≤ c && c ≤ 0x10F26) ||
    (0x10F51 ≤ c && c ≤ 0x10F54) ||
    (0x10FC5 ≤ c && c ≤ 0x10FCB) ||
    (0x1105B ≤ c && c ≤ 0x11065) ||
    (0x111E1 ≤ c && c ≤ 0x111F4) ||
    (0x1173A ≤ c && c ≤ 0x1173B) ||
    (0x118EA ≤ c && c ≤ 0x118F2) ||
    (0x11C5A ≤ c && c ≤ 0x11C6C) ||
    (0x11FC0 ≤ c && c ≤ 0x11FD4) ||
    (0x12400 ≤ c && c ≤ 0x1246E) ||
    (0x16B5B ≤ c && c ≤ 0x16B61) ||
    (0x16E80 ≤ c && c ≤ 0x16E96) ||
    (0x1D2E0 ≤ c && c ≤ 0x1D2F3) ||
    (0x1D360 ≤ c && c ≤ 0x1D378) ||
    (0x1E8C7 ≤ c && c ≤ 0x1E8CF) ||
    (0x1EC71 ≤ c && c ≤ 0x1ECAB) ||
    (0x1ECAD ≤ c && c ≤ 0x1ECAF) ||
    (0x1ECB1 ≤ c && c ≤ 0x1ECB4) ||
    (0x1ED01 ≤ c && c ≤ 0x1ED2D) ||
    (0x1ED2F ≤ c && c ≤ 0x1ED3D) ||
    (0x1F10B ≤ c && c ≤ 0x1F10C) ||
    c == 0x20001 ||
    c == 0x20064 ||
    c == 0x200E2 ||
    c == 0x20121 ||
    c == 0x2092A ||
    c == 0x20983 ||
    c == 0x2098C ||
    c == 0x2099C ||
    c == 0x20AEA ||
    c == 0x20AFD ||
    c == 0x20B19 ||
    c == 0x22390 ||
    c == 0x22998 ||
    c == 0x23B1B ||
    c == 0x2626D ||
    c == 0x2F890

/-- Python's per-character `str.isnumeric`: `isdigit` plus the further
numeric characters. -/
def pyIsNumeric (c : Nat) : Bool :=
  pyIsDigit c || pyNumericOther c

/-- Hexadecimal digit value as accepted by Python's `int(s, base=16)`:
decimal digits (any script) and the ASCII letters `a`–`f`/`A`–`F`.
Digit-property characters such as `²` are rejected by the conversion. -/
def pyHexVal (c : Nat) : Option Nat :=
  match pyNdVal c with
  | some v => some v
  | none =>
    if 0x61 ≤ c ∧ c ≤ 0x66 then some (c - 0x61 + 10)
    else if 0x41 ≤ c ∧ c ≤ 0x46 then some (c - 0x41 + 10)
    else none

/-- Model of `int(h1 ++ h2 ++ h3 ++ h4, base=16)` on a four-character string,
as used for `\uXXXX` escapes; `none` models the `ValueError` the conversion
raises. -/
def pyHex4 (h1 h2 h3 h4 : Nat) : Option Nat :=
  match pyHexVal h1, pyHexVal h2, pyHexVal h3, pyHexVal h4 with
  | some v1, some v2, some v3, some v4 =>
      some (((v1 * 16 + v2) * 16 + v3) * 16 + v4)
  | _, _, _, _ => none

/-- Digit run with underscores for Python's `int()`: after an initial digit
with accumulated value `acc`, consume `(digit | _ digit)*` to the end of the
string; `du` records whether the previous character was a digit, so that a
single underscore is permitted next.  A misplaced underscore (doubled,
trailing, or not followed by a digit) makes the conversion fail. -/
def pyDigitsRest : List Nat → Bool → Nat → Option Nat
  | [], du, acc => if du then some acc else none
  | c :: rest, du, acc =>
    match pyNdVal c with
    | some d => pyDigitsRest rest true (acc * 10 + d)
    | none => if c = 0x5F ∧ du then pyDigitsRest rest false acc else none

/-- Unsigned part of `int(s)`: a digit followed by a digit-and-underscore
run to the end of the string. -/
def pyIntAbs : List Nat → Option Nat
  | [] => none
  | d :: ds =>
    match pyNdVal d with
    | some v => pyDigitsRest ds true v
    | none => none

/-- Core of `int(s)` after whitespace stripping: optional sign, then a
nonempty digit-and-underscore run. -/
def pyIntCore (l : List Nat) : Option Int :=
  match l with
  | [] => none
  | c :: rest =>
    if c = 0x2D then (pyIntAbs rest).map (fun n => -(n : Int))
    else if c = 0x2B then (pyIntAbs rest).map (fun n => (n : Int))
    else (pyIntAbs l).map (fun n => (n : Int))

/-- Python's `int(s)` on a `str`: strips leading and trailing whitespace,
then parses an optionally signed decimal-digit string (underscores allowed
between digits); `none` models `ValueError`. -/
def pyInt (l : List Nat) : Option Int :=
  pyIntCore (((l.dropWhile pyIsSpace).reverse.dropWhile pyIsSpace).reverse)

/-- Continuation of a digit run with single underscores between digits, for
Python's `float()` grammar: returns the number of digits consumed and the
rest.  It is entered after a digit has been consumed, so an underscore
followed by a digit may open it; an underscore not followed by a digit is
left unconsumed (and will make the overall parse fail, as in Python).
`duStart` below opens a run, requiring a digit first. -/
def duRun : List Nat → Nat × List Nat
  | [] => (0, [])
  | c :: rest =>
    match pyNdVal c with
    | some _ =>
      let (k, r) := duRun rest
      (k + 1, r)
    | none =>
      if c = 0x5F then
        match rest with
        | d :: rest2 =>
          match pyNdVal d with
          | some _ =>
            let (k, r) := duRun rest2
            (k + 1, r)
          | none => (0, c :: rest)
        | [] => (0, c :: rest)
      else (0, c :: rest)

/-- A digit run as it may open a `float()` grammar position: it must begin
with a digit (a leading underscore is rejected), then continues as `duRun`.
-/
def duStart : List Nat → Nat × List Nat
  | [] => (0, [])
  | c :: rest =>
    match pyNdVal c with
    | some _ =>
      let (k, r) := duRun rest
      (k + 1, r)
    | none => (0, c :: rest)

/-- Mantissa-and-exponent part of Python's `float()` grammar (after sign):
`digits [. digits]` or `. digits`, at least one digit in total, optionally
followed by `(e|E) [sign] digits`, consuming the whole string; each digit
run must start with a digit, with single underscores only between digits. -/
def pyFloatCore (l : List Nat) : Bool :=
  let (i, r1) := duStart l
  let fr :=
    match r1 with
    | c :: rest => if c = 0x2E then some (duStart rest) else none
    | [] => none
  let f := match fr with | some (k, _) => k | none => 0
  let r2 := match fr with | some (_, r) => r | none => r1
  if i + f = 0 then false
  else
    match r2 with
    | [] => true
    | e :: rest3 =>
      if e = 0x65 ∨ e = 0x45 then
        let rest4 :=
          match rest3 with
          | s :: r => if s = 0x2B ∨ s = 0x2D then r else s :: r
          | [] => []
        match rest4 with
        | [] => false
        | _ =>
          let (k, r5) := duStart rest4
          0 < k && r5.isEmpty
      else false

/-- ASCII lowercase conversion for the `inf`/`infinity`/`nan` forms. -/
def asciiLower (c : Nat) : Nat :=
  if 0x41 ≤ c ∧ c ≤ 0x5A then c + 32 else c

/-- Acceptance predicate of Python's `float(s)`: strip whitespace, optional
sign, then either a decimal form (exponent notation allowed) or one of the
words `inf`, `infinity`, `nan` (ASCII case-insensitive). -/
def pyFloatAccepts (l : List Nat) : Bool :=
  let s := ((l.dropWhile pyIsSpace).reverse.dropWhile pyIsSpace).reverse
  let s2 := if s.head? = some 0x2B ∨ s.head? = some 0x2D then s.drop 1 else s
  let w := s2.map asciiLower
  if w = pyStr "inf" ∨ w = pyStr "infinity" ∨ w = pyStr "nan" then true
  else pyFloatCore s2

/-! ## Part 2: shallow embedding of `decoder.py`

Decoded values.  A Python `float` is a pure function of the text it was
converted from, so a float value is represented by the token passed to
`float(...)`; two values built from the same token are equal floats. -/

inductive JVal where
  | null
  | bool (b : Bool)
  | int (n : Int)
  | flt (tok : List Nat)
  | str (cs : List Nat)
  | arr (xs : List JVal)
  | obj (kvs : List (List Nat × JVal))
  deriving Repr

/-- Failure outcomes of a `decode` call: `json msg` is a raised
`JSONDecodeError` with the source's message text; `py msg` is any other
Python exception escaping the call (the source lets the `ValueError` from
`int(hex_digits, base=16)` and the `IndexError` from `s[-1]` escape). -/
inductive JErr where
  | json (msg : String)
  | py (msg : String)
  deriving Repr, DecidableEq

/-- Python dict assignment `obj[key] = value`: replaces the value at an
existing key in place, otherwise appends the new binding. -/
def dictSet : List (List Nat × JVal) → List Nat → JVal → List (List Nat × JVal)
  | [], k, v => [(k, v)]
  | (k', v') :: rest, k, v =>
    if k' = k then (k', v) :: rest else (k', v') :: dictSet rest k v

/-- Python dict lookup `obj[key]`. -/
def dictGet : List (List Nat × JVal) → List Nat → Option JVal
  | [], _ => none
  | (k', v') :: rest, k => if k' = k then some v' else dictGet rest k

/-- The four characters `_skip_whitespace` consumes: space, tab, LF, CR. -/
def isWs4 (c : Nat) : Bool :=
  c == 0x20 || c == 0x09 || c == 0x0A || c == 0x0D

/-- Model of `_skip_whitespace`: consume the maximal run of the four ASCII
whitespace characters. -/
def skipWs (l : List Nat) : List Nat := l.dropWhile isWs4

/-- The delimiters ending greedy token collection in `_parse_number` and
`_parse_literal`: any `str.isspace` character, `,`, `}`, `]` (end of input
also stops collection). -/
def stopChar (c : Nat) : Bool :=
  pyIsSpace c || c == 0x2C || c == 0x7D || c == 0x5D

/-- The greedy collection loop shared by `_parse_number` and
`_parse_literal`: consume characters until a delimiter or end of input,
returning the token and the rest. -/
def collectTok : List Nat → List Nat × List Nat
  | [] => ([], [])
  | c :: rest =>
    if stopChar c then ([], c :: rest)
    else
      let (t, r) := collectTok rest
      (c :: t, r)

/-- Model of `_parse_literal`: greedily collect a token and match it against
`true`, `false`, `null`. -/
def parseLiteralFn (l : List Nat) : Except JErr (JVal × List Nat) :=
  let (s, rest) := collectTok l
  if s = pyStr "true" then .ok (.bool true, rest)
  else if s = pyStr "false" then .ok (.bool false, rest)
  else if s = pyStr "null" then .ok (.null, rest)
  else .error (.json "Invalid literal syntax")

/-- Model of `_parse_number`: greedily collect a token (`isFloat` records whether a
`.` was collected), check for a trailing dot and a leading zero, then
convert with `float(s)` or `int(s)`; conversion failure raises
`JSONDecodeError("Invalid number")`.  On an empty token the access `s[-1]`
raises an uncaught `IndexError` (the source comments that the dispatcher
guarantees nonemptiness). -/
def parseNumberFn (l : List Nat) : Except JErr (JVal × List Nat) :=
  let (s, rest) := collectTok l
  let isFloat := s.contains 0x2E
  match s.getLast? with
  | none => .error (.py "IndexError: string index out of range")
  | some last =>
    if last = 0x2E then .error (.json "Dot cannot be in the end")
    else if (match s with
             | a :: b :: _ => a == 0x30 && pyIsNumeric b
             | _ => false) then
      .error (.json "Number cannot begin with 0")
    else if isFloat then
      if pyFloatAccepts s then .ok (.flt s, rest)
      else .error (.json "Invalid number")
    else
      match pyInt s with
      | some n => .ok (.int n, rest)
      | none => .error (.json "Invalid number")

/-- The escape table `_ESCAPE_CHARACTERS`. -/
def escMap (c : Nat) : Option Nat :=
  if c = 0x22 then some 0x22
  else if c = 0x5C then some 0x5C
  else if c = 0x6E then some 0x0A
  else if c = 0x72 then some 0x0D
  else if c = 0x74 then some 0x09
  else if c = 0x62 then some 0x08
  else if c = 0x66 then some 0x0C
  else if c = 0x2F then some 0x2F
  else none

/-- The check applied to each of the four characters after `\u`:
`hd.isdigit() or hd.lower() in "abcdef"`. -/
def hexOk (c : Nat) : Bool :=
  pyIsDigit c || (0x61 ≤ c && c ≤ 0x66) || (0x41 ≤ c && c ≤ 0x46)

/-- The character-consuming loop of `_parse_string`, after the opening quote
has been consumed: raw control characters are rejected, `"` ends the string,
`\` starts an escape (single-character table or `\u` plus four checked
characters converted with `int(..., base=16)` and appended by code point via
`chr`), anything else is appended verbatim. -/
def strLoop : List Nat → Except JErr (List Nat × List Nat)
  | [] => .error (.json "Unterminated string")
  | c :: rest =>
    if c < 0x20 then .error (.json "Unescaped control character in string")
    else if c = 0x22 then .ok ([], rest)
    else if c = 0x5C then
      match rest with
      | [] => .error (.json "\\ not followed by anything to escape")
      | e :: rest2 =>
        if e = 0x75 then
          match rest2 with
          | h1 :: h2 :: h3 :: h4 :: rest3 =>
            if hexOk h1 && hexOk h2 && hexOk h3 && hexOk h4 then
              match pyHex4 h1 h2 h3 h4 with
              | some n => (strLoop rest3).map (fun p => (n :: p.1, p.2))
              | none =>
                .error (.py "ValueError: invalid literal for int with base 16")
            else .error (.json "Invalid escape with \\u")
          | _ => .error (.json "Invalid escape with \\u")
        else
          match escMap e with
          | some c2 => (strLoop rest2).map (fun p => (c2 :: p.1, p.2))
          | none => .error (.json "Invalid escape")
    else (strLoop rest).map (fun p => (c :: p.1, p.2))

/-- Model of `_parse_string`: consume the opening quote, then run the loop. -/
def parseStringFn (l : List Nat) : Except JErr (List Nat × List Nat) :=
  strLoop (l.drop 1)

mutual

/-- Model of `_parse_one`, the value dispatcher, with a fuel argument bounding
recursion depth (`none` = fuel exhausted; `decode` supplies enough).
Routes on the next character: `{` object, `[` array, `"` string,
`t`/`f`/`n` literal, `-` or `str.isdigit` number, otherwise
`JSONDecodeError("Invalid JSON")`; no character raises
`JSONDecodeError("No input")`. -/
def parseOne : Nat → List Nat → Option (Except JErr (JVal × List Nat))
  | 0, _ => none
  | Nat.succ f, l =>
    match l.head? with
    | none => some (.error (.json "No input"))
    | some c =>
      if c = 0x7B then objLoop f [] (l.drop 1)
      else if c = 0x5B then arrLoop f [] (l.drop 1)
      else if c = 0x22 then
        some ((parseStringFn l).map (fun p => (.str p.1, p.2)))
      else if c = 0x74 ∨ c = 0x66 ∨ c = 0x6E then
        some (parseLiteralFn l)
      else if c = 0x2D ∨ pyIsDigit c then
        some (parseNumberFn l)
      else some (.error (.json "Invalid JSON"))

/-- The loop of `_parse_object`, entered after `{` is consumed, carrying the
dict built so far: skip whitespace; `}` ends the object; a non-quote
character is a non-string key; otherwise parse a key, require `:`, parse a
value, assign it (last write wins), then require `,` (rejecting a following
`,` or `}`) or `}`. -/
def objLoop : Nat → List (List Nat × JVal) → List Nat →
    Option (Except JErr (JVal × List Nat))
  | 0, _, _ => none
  | Nat.succ f, obj, l =>
    let l1 := skipWs l
    match l1.head? with
    | none => some (.error (.json "Object ends without \x7d"))
    | some c =>
      if c = 0x7D then some (.ok (.obj obj, l1.drop 1))
      else if c ≠ 0x22 then some (.error (.json "Keys must be strings"))
      else
        match parseStringFn l1 with
        | .error e => some (.error e)
        | .ok (key, l2) =>
          let l3 := skipWs l2
          if l3.head? = some 0x3A then
            let l4 := skipWs (l3.drop 1)
            match parseOne f l4 with
            | none => none
            | some (.error e) => some (.error e)
            | some (.ok (v, l5)) =>
              let obj2 := dictSet obj key v
              let l6 := skipWs l5
              if l6.head? = some 0x2C then
                let l7 := skipWs (l6.drop 1)
                if l7.head? = some 0x2C then
                  some (.error (.json "Can\x27t have two commas back to back"))
                else if l7.head? = some 0x7D then
                  some (.error (.json "Can\x27t end with a trailing comma"))
                else objLoop f obj2 l7
              else if l6.head? = some 0x7D then objLoop f obj2 l6
              else some (.error (.json "Keys must be separated by , "))
          else some (.error (.json "Key not followed by \":\""))

/-- The loop of `_parse_array`, entered after `[` is consumed, carrying the
elements appended so far: skip whitespace; `]` ends the array; otherwise
dispatch an element, then require `,` (rejecting a following `,` or `]`) or
`]`. -/
def arrLoop : Nat → List JVal → List Nat →
    Option (Except JErr (JVal × List Nat))
  | 0, _, _ => none
  | Nat.succ f, arr, l =>
    let l1 := skipWs l
    match l1.head? with
    | none => some (.error (.json "Array ends without ]"))
    | some c =>
      if c = 0x5D then some (.ok (.arr arr, l1.drop 1))
      else
        match parseOne f l1 with
        | none => none
        | some (.error e) => some (.error e)
        | some (.ok (element, l2)) =>
          let l3 := skipWs l2
          if l3.head? = some 0x2C then
            let l4 := skipWs (l3.drop 1)
            if l4.head? = some 0x2C then
              some (.error (.json "Can\x27t have two commas back to back"))
            else if l4.head? = some 0x5D then
              some (.error (.json "Can\x27t end with a trailing comma"))
            else arrLoop f (arr ++ [element]) l4
          else if l3.head? = some 0x5D then arrLoop f (arr ++ [element]) l3
          else some (.error (.json "Array elements must be separated with ,"))

end

/-- Model of `decode(text)`: skip leading whitespace, parse one value, skip trailing
whitespace, and fail if any character remains.  The fuel `length + 1`
bounds the recursion depth, which the source's parsers never exceed. -/
def decode (l : List Nat) : Option (Except JErr JVal) :=
  match parseOne (l.length + 1) (skipWs l) with
  | none => none
  | some (.error e) => some (.error e)
  | some (.ok (v, l2)) =>
    match (skipWs l2).head? with
    | none => some (.ok v)
    | some _ => some (.error (.json "Extra characters after JSON"))

/-! ## Part 3: the reference decoder

Modelled from the spec: the repository contains no reference decoder (the
excluded CLI collaborator uses Python's `json.loads` as the trusted
reference).  `refOne`/`refDecode` below implement the restricted grammar of
spec §6 (four ASCII whitespace characters; literals `true`/`false`/`null`;
numbers with optional leading `-`, digits, at most one `.` followed by
digits, no exponent, no leading zero before another digit; double-quoted
strings with the eight listed escapes and `\uXXXX` with four ASCII hex
digits; comma-separated objects and arrays without trailing commas; any
value type at top level) with the reference decoder's value semantics:
integers as arbitrary-precision integers, floats converted from the exact
numeral token, object key collisions resolved last-write-wins, arrays in
order, and — when `combine` is set, as in the trusted reference — a
`\uXXXX` escape of a high surrogate immediately followed by one of a low
surrogate decoded as the single combined astral code point. -/

/-- ASCII decimal digit. -/
def asciiDigit (c : Nat) : Bool := 0x30 ≤ c && c ≤ 0x39

/-- ASCII hexadecimal digit value (`0`–`9`, `a`–`f`, `A`–`F`). -/
def asciiHexVal (c : Nat) : Option Nat :=
  if 0x30 ≤ c ∧ c ≤ 0x39 then some (c - 0x30)
  else if 0x61 ≤ c ∧ c ≤ 0x66 then some (c - 0x61 + 10)
  else if 0x41 ≤ c ∧ c ≤ 0x46 then some (c - 0x41 + 10)
  else none

/-- Value of four ASCII hex digits. -/
def asciiHex4 (h1 h2 h3 h4 : Nat) : Option Nat :=
  match asciiHexVal h1, asciiHexVal h2, asciiHexVal h3, asciiHexVal h4 with
  | some v1, some v2, some v3, some v4 =>
      some (((v1 * 16 + v2) * 16 + v3) * 16 + v4)
  | _, _, _, _ => none

/-- Greedy run of ASCII digits. -/
def takeDigits : List Nat → List Nat × List Nat
  | [] => ([], [])
  | c :: rest =>
    if asciiDigit c then
      let (t, r) := takeDigits rest
      (c :: t, r)
    else ([], c :: rest)

/-- Numeric value of an ASCII digit string (most significant first),
accumulated onto `acc`. -/
def digitsVal : List Nat → Nat → Nat
  | [], acc => acc
  | d :: rest, acc => digitsVal rest (acc * 10 + (d - 0x30))

/-- Modelled from the spec: reference string body after the opening quote,
with a fuel argument bounding the number of processed characters (fuel-out
`none` cannot occur at the fuel `refStrLoop` supplies).  Raw characters
`≥ 0x20` other than `"` and `\` verbatim; the eight single-character
escapes; `\u` plus four ASCII hex digits; when `cb` is set, a
high-surrogate escape immediately followed by a low-surrogate escape yields
the combined astral code point (the trusted reference decoder's behavior). -/
def refStrF (cb : Bool) : Nat → List Nat → Option (List Nat × List Nat)
  | 0, _ => none
  | Nat.succ f, l =>
    match l with
    | [] => none
    | c :: rest =>
      if c < 0x20 then none
      else if c = 0x22 then some ([], rest)
      else if c = 0x5C then
        match rest with
        | [] => none
        | e :: rest2 =>
          if e = 0x75 then
            match rest2 with
            | h1 :: h2 :: h3 :: h4 :: rest3 =>
              match asciiHex4 h1 h2 h3 h4 with
              | some n =>
                if cb ∧ 0xD800 ≤ n ∧ n ≤ 0xDBFF then
                  match rest3 with
                  | 0x5C :: 0x75 :: g1 :: g2 :: g3 :: g4 :: rest4 =>
                    match asciiHex4 g1 g2 g3 g4 with
                    | some m =>
                      if 0xDC00 ≤ m ∧ m ≤ 0xDFFF then
                        (refStrF cb f rest4).map
                          (fun p =>
                            ((0x10000 + (n - 0xD800) * 0x400 + (m - 0xDC00)) :: p.1,
                             p.2))
                      else (refStrF cb f rest3).map (fun p => (n :: p.1, p.2))
                    | none => (refStrF cb f rest3).map (fun p => (n :: p.1, p.2))
                  | _ => (refStrF cb f rest3).map (fun p => (n :: p.1, p.2))
                else (refStrF cb f rest3).map (fun p => (n :: p.1, p.2))
              | none => none
            | _ => none
          else
            match escMap e with
            | some c2 => (refStrF cb f rest2).map (fun p => (c2 :: p.1, p.2))
            | none => none
      else (refStrF cb f rest).map (fun p => (c :: p.1, p.2))

/-- Reference string body with sufficient fuel. -/
def refStrLoop (cb : Bool) (l : List Nat) : Option (List Nat × List Nat) :=
  refStrF cb (l.length + 1) l

/-- Modelled from the spec: reference number — optional `-`, digits with no
leading zero before another digit, optionally one `.` followed by digits.
An integer token yields its integer value; a fractional token yields the
float of the exact token text, as the reference decoder computes it. -/
def refNum (l : List Nat) : Option (JVal × List Nat) :=
  let l2 := if l.head? = some 0x2D then l.drop 1 else l
  let ds := (takeDigits l2).1
  let r1 := (takeDigits l2).2
  if ds = [] then none
  else if ds.head? = some 0x30 ∧ 2 ≤ ds.length then none
  else if r1.head? = some 0x2E then
    let fs := (takeDigits (r1.drop 1)).1
    if fs = [] then none
    else
      some (.flt ((if l.head? = some 0x2D then [0x2D] else []) ++ ds ++ 0x2E :: fs),
        (takeDigits (r1.drop 1)).2)
  else
    some (.int (if l.head? = some 0x2D then -(digitsVal ds 0 : Int)
                else (digitsVal ds 0 : Int)), r1)

/-- Modelled from the spec: reference literal — exactly `true`, `false` or
`null` at the current position. -/
def refLit (l : List Nat) : Option (JVal × List Nat) :=
  if (pyStr "true").isPrefixOf l then some (.bool true, l.drop 4)
  else if (pyStr "false").isPrefixOf l then some (.bool false, l.drop 5)
  else if (pyStr "null").isPrefixOf l then some (.null, l.drop 4)
  else none

mutual

/-- Modelled from the spec: reference value at the current position.  Outer
`none` is exhausted fuel (`refDecode` supplies enough for any input); inner
`none` rejects the input. -/
def refOne (cb : Bool) : Nat → List Nat → Option (Option (JVal × List Nat))
  | 0, _ => none
  | Nat.succ f, l =>
    match l.head? with
    | none => some none
    | some c =>
      if c = 0x7B then
        let l1 := skipWs (l.drop 1)
        if l1.head? = some 0x7D then some (some (.obj [], l1.drop 1))
        else refPairs cb f [] l1
      else if c = 0x5B then
        let l1 := skipWs (l.drop 1)
        if l1.head? = some 0x5D then some (some (.arr [], l1.drop 1))
        else refElems cb f [] l1
      else if c = 0x22 then
        some ((refStrLoop cb (l.drop 1)).map (fun p => (.str p.1, p.2)))
      else if c = 0x74 ∨ c = 0x66 ∨ c = 0x6E then
        some (refLit l)
      else if c = 0x2D ∨ asciiDigit c then
        some (refNum l)
      else some none

/-- Modelled from the spec: reference object members from the first key of a
nonempty member list (whitespace already skipped), accumulating with
last-write-wins dict assignment; members separated by single commas, ended
by `}` with no trailing comma. -/
def refPairs (cb : Bool) :
    Nat → List (List Nat × JVal) → List Nat → Option (Option (JVal × List Nat))
  | 0, _, _ => none
  | Nat.succ f, acc, l =>
    if l.head? = some 0x22 then
      match refStrLoop cb (l.drop 1) with
      | none => some none
      | some (key, l2) =>
        let l3 := skipWs l2
        if l3.head? = some 0x3A then
          match refOne cb f (skipWs (l3.drop 1)) with
          | none => none
          | some none => some none
          | some (some (v, l5)) =>
            let l6 := skipWs l5
            if l6.head? = some 0x2C then
              refPairs cb f (dictSet acc key v) (skipWs (l6.drop 1))
            else if l6.head? = some 0x7D then
              some (some (.obj (dictSet acc key v), l6.drop 1))
            else some none
        else some none
    else some none

/-- Modelled from the spec: reference array elements from the first element
of a nonempty element list (whitespace already skipped); elements separated
by single commas, ended by `]` with no trailing comma. -/
def refElems (cb : Bool) :
    Nat → List JVal → List Nat → Option (Option (JVal × List Nat))
  | 0, _, _ => none
  | Nat.succ f, acc, l =>
    match refOne cb f l with
    | none => none
    | some none => some none
    | some (some (e, l2)) =>
      let l3 := skipWs l2
      if l3.head? = some 0x2C then refElems cb f (acc ++ [e]) (skipWs (l3.drop 1))
      else if l3.head? = some 0x5D then some (some (.arr (acc ++ [e]), l3.drop 1))
      else some none

end

/-- Modelled from the spec: full reference decode — leading and trailing
whitespace around exactly one value, `none` on any input the restricted
grammar rejects.  With `cb` set this is the trusted reference decoder's
result on §6-grammar inputs; with `cb` unset, the same semantics without
surrogate-pair combination. -/
def refDecode (cb : Bool) (l : List Nat) : Option JVal :=
  match refOne cb (l.length + 1) (skipWs l) with
  | some (some (v, rest)) => if skipWs rest = [] then some v else none
  | _ => none

/-- Does the rest of the input start with a collection delimiter (or end)? -/
def followOk (r : List Nat) : Bool :=
  match r.head? with
  | none => true
  | some c => stopChar c

/-- The characters on which the dispatcher (reference or code) can take a
parsing branch: `{`, `[`, `"`, `t`, `f`, `n`, `-`, or an ASCII digit. -/
def dispatchChar (c : Nat) : Bool :=
  (c == 0x7B) || (c == 0x5B) || (c == 0x22) || (c == 0x74) || (c == 0x66) ||
    (c == 0x6E) || (c == 0x2D) || asciiDigit c

example : decode (pyStr "123") = some (.ok (.int 123)) := rfl

example : decode (pyStr "-01") = some (.ok (.int (-1))) := rfl

example : decode (pyStr "1.5e3") = some (.ok (.flt (pyStr "1.5e3"))) := rfl

example : decode (pyStr "١") = some (.ok (.int 1)) := rfl

example : decode (pyStr "\"\\u0١41\"") = some (.ok (.str [0x141])) := rfl

example : decode (pyStr "๑") = some (.ok (.int 1)) := rfl

example : decode (pyStr "\"\\u0๑41\"") = some (.ok (.str [0x141])) := rfl

example : decode (pyStr "①") = some (.error (.json "Invalid number")) := rfl

example : pyFloatAccepts (pyStr "1_5.0_1e1_0") = true := rfl

example : pyFloatAccepts (pyStr "0._5") = false := rfl

example : pyFloatAccepts (pyStr "_5.0") = false := rfl

example : decode (pyStr "\"\\u²000\"") =
    some (.error (.py "ValueError: invalid literal for int with base 16")) := rfl

example : decode (pyStr "  \x7b \"a\" : true , \"b\" : [1, 2.5, null] \x7d ") =
    some (.ok (.obj [(pyStr "a", .bool true),
      (pyStr "b", .arr [.int 1, .flt (pyStr "2.5"), .null])])) := rfl

example : refDecode true (pyStr "  \x7b \"a\" : true , \"b\" : [1, 2.5, null] \x7d ") =
    some (.obj [(pyStr "a", .bool true),
      (pyStr "b", .arr [.int 1, .flt (pyStr "2.5"), .null])]) := rfl

example : refDecode true (pyStr "\"\\uD834\\uDD1E\"") = some (.str [0x1D11E]) := rfl

example : refDecode false (pyStr "\"\\uD834\\uDD1E\"") =
    some (.str [0xD834, 0xDD1E]) := rfl

example : decode (pyStr "\"\\uD834\\uDD1E\"") =
    some (.ok (.str [0xD834, 0xDD1E])) := rfl

example : refDecode true (pyStr "-01") = none := rfl

example : refDecode true (pyStr "01") = none := rfl

example : refDecode true (pyStr "0.5") = some (.flt (pyStr "0.5")) := rfl

example : refDecode true (pyStr "[1,2,]") = none := rfl

example : refDecode true (pyStr "truex") = none := rfl

/-! ## Helper lemmas on the Python character tables -/

/-- A decimal digit lies in one of the ranges of the Nd table. -/
theorem pyNdVal_ranges {c v : Nat} (h : pyNdVal c = some v) :
    ∃ lo, lo ∈ ndStarts ∧ lo ≤ c ∧ c ≤ lo + 9 := by
  rw [pyNdVal] at h
  rcases hf : ndStarts.find? (fun lo => lo ≤ c && c ≤ lo + 9) with _ | lo
  · rw [hf] at h
    cases h
  · have hmem := List.mem_of_find?_eq_some hf
    have hp := List.find?_some hf
    simp only [Bool.and_eq_true, decide_eq_true_eq] at hp
    exact ⟨lo, hmem, hp.1, hp.2⟩

/-- Range decomposition of the digit table. -/
theorem pyIsDigit_bounds {c : Nat} (h : pyIsDigit c = true) :
    (0x30 ≤ c ∧ c ≤ 0x39) ∨ 0xB2 ≤ c := by
  simp only [pyIsDigit, Bool.or_eq_true] at h
  rcases h with h | h
  · obtain ⟨v, hv⟩ := Option.isSome_iff_exists.mp h
    obtain ⟨lo, hmem, h1, h2⟩ := pyNdVal_ranges hv
    simp only [ndStarts, List.mem_cons, List.not_mem_nil, or_false] at hmem
    omega
  · simp only [pyDigitOther, Bool.or_eq_true, beq_iff_eq, Bool.and_eq_true,
      decide_eq_true_eq] at h
    omega

/-- Digit-table characters are not Python whitespace. -/
theorem pyIsDigit_not_space {c : Nat} (h : pyIsDigit c = true) :
    pyIsSpace c = false := by
  simp only [pyIsDigit, Bool.or_eq_true] at h
  simp only [pyIsSpace, Bool.or_eq_false_iff, Bool.and_eq_false_iff,
    beq_eq_false_iff_ne, ne_eq, decide_eq_false_iff_not, Nat.not_le]
  rcases h with h | h
  · obtain ⟨v, hv⟩ := Option.isSome_iff_exists.mp h
    obtain ⟨lo, hmem, h1, h2⟩ := pyNdVal_ranges hv
    simp only [ndStarts, List.mem_cons, List.not_mem_nil, or_false] at hmem
    omega
  · simp only [pyDigitOther, Bool.or_eq_true, beq_iff_eq, Bool.and_eq_true,
      decide_eq_true_eq] at h
    omega

/-- Digit-table characters are not collection delimiters. -/
theorem pyIsDigit_not_stop {c : Nat} (h : pyIsDigit c = true) :
    stopChar c = false := by
  have hb := pyIsDigit_bounds h
  simp only [stopChar, pyIsDigit_not_space h, Bool.false_or,
    Bool.or_eq_false_iff, beq_eq_false_iff_ne, ne_eq]
  omega

/-- A minus sign is not a collection delimiter. -/
theorem minus_not_stop : stopChar 0x2D = false := rfl

/-- One collection step on a non-delimiter character. -/
theorem collectTok_cons {c : Nat} (rest : List Nat) (h : stopChar c = false) :
    collectTok (c :: rest) = ((c :: (collectTok rest).1, (collectTok rest).2)) := by
  simp [collectTok, h]

/-! ## C10: the number parser's token is never empty when dispatched -/

/-- C10.  Whenever the dispatcher routes to the Number Parser (next character
is `-` or satisfies Python's `isdigit`), the greedily collected token is
nonempty, so the post-collection accesses `s[-1]`, `s[0]`, `s[1]` are in
bounds: `_parse_number` never raises the `IndexError` its empty-token case
would produce (nor any other non-`JSONDecodeError` exception). -/
theorem c10_number_token_nonempty (l : List Nat) (c : Nat)
    (hhead : l.head? = some c) (hc : c = 0x2D ∨ pyIsDigit c = true) :
    (collectTok l).1 ≠ [] ∧ ∀ e, parseNumberFn l ≠ .error (.py e) := by
  rcases l with _ | ⟨c0, rest⟩
  · simp at hhead
  · have hc0 : c0 = c := by simpa using hhead
    subst hc0
    have hstop : stopChar c0 = false := by
      rcases hc with hc | hc
      · subst hc; exact minus_not_stop
      · exact pyIsDigit_not_stop hc
    have hcol := @collectTok_cons c0 rest hstop
    refine ⟨by simp [hcol], ?_⟩
    intro e
    simp only [parseNumberFn, hcol]
    rcases hlast : (c0 :: (collectTok rest).1).getLast? with _ | last
    · simp at hlast
    · simp only [hlast]
      split
      · simp
      · split
        · simp
        · split
          · split <;> simp
          · split <;> simp

theorem c10_number_token_nonempty_witness :
    (collectTok (pyStr "12")).1 ≠ [] ∧
      ∀ e, parseNumberFn (pyStr "12") ≠ .error (.py e) :=
  c10_number_token_nonempty (pyStr "12") 0x31 rfl (Or.inr rfl)

/-! ## C4: the value dispatcher -/

/-- C4 (amended).  The dispatcher routes `{` to the Object Parser, `[` to the
Array Parser, `"` to the String Parser, `t`/`f`/`n` to the Literal Parser,
and `-` or any character satisfying Python's `str.isdigit` — not only ASCII
digits — to the Number Parser; on any other character it fails with
`JSONDecodeError("Invalid JSON")` (the UnexpectedCharacter condition), and
with `JSONDecodeError("No input")` (EmptyInput) when no character remains. -/
theorem c4_dispatcher_routing :
    (∀ f l c, l.head? = some c → c ≠ 0x7B → c ≠ 0x5B → c ≠ 0x22 →
      c ≠ 0x74 → c ≠ 0x66 → c ≠ 0x6E → c ≠ 0x2D → pyIsDigit c = false →
      parseOne (f + 1) l = some (.error (.json "Invalid JSON"))) ∧
    (∀ f l, l.head? = none →
      parseOne (f + 1) l = some (.error (.json "No input"))) ∧
    (∀ f l, l.head? = some 0x7B → parseOne (f + 1) l = objLoop f [] (l.drop 1)) ∧
    (∀ f l, l.head? = some 0x5B → parseOne (f + 1) l = arrLoop f [] (l.drop 1)) ∧
    (∀ f l, l.head? = some 0x22 → parseOne (f + 1) l =
      some ((parseStringFn l).map (fun p => (.str p.1, p.2)))) ∧
    (∀ f l c, l.head? = some c → (c = 0x74 ∨ c = 0x66 ∨ c = 0x6E) →
      parseOne (f + 1) l = some (parseLiteralFn l)) ∧
    (∀ f l c, l.head? = some c → (c = 0x2D ∨ pyIsDigit c = true) →
      parseOne (f + 1) l = some (parseNumberFn l)) ∧
    decode (pyStr "@") = some (.error (.json "Invalid JSON")) ∧
    decode (pyStr "") = some (.error (.json "No input")) := by
  refine ⟨?_, ?_, ?_, ?_, ?_, ?_, ?_, rfl, rfl⟩
  · intro f l c hh h1 h2 h3 h4 h5 h6 h7 h8
    simp [parseOne, hh, h1, h2, h3, h4, h5, h6, h7, h8]
  · intro f l hh
    simp [parseOne, hh]
  · intro f l hh
    simp [parseOne, hh]
  · intro f l hh
    have : (0x5B : Nat) ≠ 0x7B := by omega
    simp [parseOne, hh, this]
  · intro f l hh
    simp [parseOne, hh]
  · intro f l c hh hc
    rcases hc with hc | hc | hc <;> subst hc <;> simp [parseOne, hh]
  · intro f l c hh hc
    have h1 : c ≠ 0x7B := by
      rcases hc with hc | hc
      · omega
      · have := pyIsDigit_bounds hc; omega
    have h2 : c ≠ 0x5B := by
      rcases hc with hc | hc
      · omega
      · have := pyIsDigit_bounds hc; omega
    have h3 : c ≠ 0x22 := by
      rcases hc with hc | hc
      · omega
      · have := pyIsDigit_bounds hc; omega
    have h4 : c ≠ 0x74 := by
      rcases hc with hc | hc
      · omega
      · have := pyIsDigit_bounds hc; omega
    have h5 : c ≠ 0x66 := by
      rcases hc with hc | hc
      · omega
      · have := pyIsDigit_bounds hc; omega
    have h6 : c ≠ 0x6E := by
      rcases hc with hc | hc
      · omega
      · have := pyIsDigit_bounds hc; omega
    simp [parseOne, hh, h1, h2, h3, h4, h5, h6, hc]

/-- C4, counterexample to the claim as stated: the Arabic-Indic digit `١`
(U+0661) is not rejected with UnexpectedCharacter; `str.isdigit` holds for
it, so it is routed to the Number Parser and `decode("١")` returns the
integer 1 (Python's `int("١")`). -/
theorem c4_nonascii_digit_counterexample :
    decode (pyStr "١") = some (.ok (.int 1)) := rfl

theorem c4_dispatcher_routing_witness :
    parseOne 1 (pyStr "@") = some (.error (.json "Invalid JSON")) :=
  c4_dispatcher_routing.1 0 (pyStr "@") 0x40 rfl
    (by omega) (by omega) (by omega) (by omega) (by omega) (by omega)
    (by omega) rfl

/-! ## C6: a non-JSONDecodeError exception escapes on `\u²000` -/

/-- C6.  The input `"\u²000"`: the superscript-two character `²` (U+00B2)
satisfies Python's `str.isdigit`, so the escape check
`hd.isdigit() or hd.lower() in "abcdef"` accepts it, but `²` is not a
decimal digit, so the unguarded conversion `int(hex_digits, base=16)`
raises a `ValueError` that escapes `decode` — contradicting the claim that
only `JSONDecodeError` failures escape. -/
theorem c6_valueerror_escapes :
    decode (pyStr "\"\\u²000\"") =
      some (.error (.py "ValueError: invalid literal for int with base 16")) := rfl

/-! ## C7: duplicate object keys resolve to the last occurrence -/

/-- C7.  Object assignment is Python's last-write-wins dict update: the
decoded object maps each key to the value of its last occurrence (lookup of
the just-assigned key yields the new value, other keys are unaffected), and
`decode('{"a": 1, "b": 2, "a": 3}')` is the object `{a: 3, b: 2}`. -/
theorem c7_duplicate_keys_last_wins :
    decode (pyStr "\x7b\"a\": 1, \"b\": 2, \"a\": 3\x7d") =
      some (.ok (.obj [(pyStr "a", .int 3), (pyStr "b", .int 2)])) ∧
    (∀ d k v, dictGet (dictSet d k v) k = some v) ∧
    (∀ d k v k', k' ≠ k → dictGet (dictSet d k v) k' = dictGet d k') := by
  refine ⟨rfl, ?_, ?_⟩
  · intro d k v
    induction d with
    | nil => simp [dictSet, dictGet]
    | cons kv rest ih =>
      obtain ⟨k0, v0⟩ := kv
      by_cases hk : k0 = k
      · simp [dictSet, dictGet, hk]
      · simp [dictSet, dictGet, hk, ih]
  · intro d k v k' hne
    induction d with
    | nil =>
      have h2 : ¬k = k' := fun h => hne h.symm
      simp [dictSet, dictGet, h2]
    | cons kv rest ih =>
      obtain ⟨k0, v0⟩ := kv
      by_cases hk : k0 = k
      · subst hk
        have h2 : ¬k0 = k' := fun h => hne h.symm
        simp [dictSet, dictGet, h2]
      · by_cases hk' : k0 = k'
        · subst hk'
          simp [dictSet, dictGet, hk]
        · simp [dictSet, dictGet, hk, hk', ih]

theorem c7_duplicate_keys_last_wins_witness :
    dictGet (dictSet [] (pyStr "a") (.int 1)) (pyStr "b") =
      dictGet [] (pyStr "b") :=
  c7_duplicate_keys_last_wins.2.2 [] (pyStr "a") (.int 1) (pyStr "b")
    (by simp [pyStr])

/-! ## C5 and C9: `\u` escapes -/

/-- Characters accepted by `int(..., base=16)` pass the source's
per-character check. -/
theorem hexOk_of_pyHexVal {c v : Nat} (h : pyHexVal c = some v) :
    hexOk c = true := by
  simp only [pyHexVal] at h
  simp only [hexOk, pyIsDigit, Bool.or_eq_true, Bool.and_eq_true,
    decide_eq_true_eq, Option.isSome]
  rcases hv : pyNdVal c with _ | w
  · rw [hv] at h
    split_ifs at h <;> omega
  · simp

/-- C5 (amended).  The check applied to each of the four characters after
`\u` is `hd.isdigit() or hd.lower() in "abcdef"`: it accepts ASCII
hexadecimal digits and any character with Python's digit property, not only
ASCII hexadecimal digits.  Whenever one of the four characters fails this
check — or fewer than four characters remain — the string parser fails with
`JSONDecodeError("Invalid escape with \u")` (the InvalidUnicodeEscape
condition); but a non-ASCII decimal digit among the four is accepted and
contributes its decimal value, so e.g. `"\u0G41"` is rejected while
`"\u0١41"` (with the Arabic-Indic digit `١`) is not. -/
theorem c5_unicode_escape_check :
    (∀ h1 h2 h3 h4 rest,
      (hexOk h1 && hexOk h2 && hexOk h3 && hexOk h4) = false →
      strLoop (0x5C :: 0x75 :: h1 :: h2 :: h3 :: h4 :: rest) =
        .error (.json "Invalid escape with \\u")) ∧
    (∀ s4 : List Nat, s4.length < 4 →
      strLoop (0x5C :: 0x75 :: s4) = .error (.json "Invalid escape with \\u")) ∧
    decode (pyStr "\"\\u0G41\"") = some (.error (.json "Invalid escape with \\u")) := by
  refine ⟨?_, ?_, rfl⟩
  · intro h1 h2 h3 h4 rest hbad
    simp [strLoop, hbad]
  · intro s4 hlen
    rcases s4 with _ | ⟨a, _ | ⟨b, _ | ⟨c, _ | ⟨d, t⟩⟩⟩⟩
    · rfl
    · rfl
    · rfl
    · rfl
    · simp at hlen; omega

/-- C5, counterexample to the claim as stated: the four characters after
`\u` in `"\u0١41"` include the Arabic-Indic digit `١` (U+0661), which is
not an ASCII hexadecimal digit, yet decode does not fail with
InvalidUnicodeEscape: `str.isdigit` holds for `١`, `int("0١41", 16)`
evaluates to 0x0141, and the decoded string is `"Ł"` (U+0141). -/
theorem c5_nonascii_hex_counterexample :
    decode (pyStr "\"\\u0١41\"") = some (.ok (.str [0x141])) := rfl

theorem c5_unicode_escape_check_witness :
    strLoop (0x5C :: 0x75 :: [0x30, 0x47, 0x34, 0x31]) =
      .error (.json "Invalid escape with \\u") :=
  c5_unicode_escape_check.1 0x30 0x47 0x34 0x31 [] rfl

/-- C9.  Each `\uXXXX` escape whose four characters convert under
`int(..., base=16)` is decoded independently into the single code point the
conversion yields, prepended to the rest of the decoded string — there is no
surrogate-pair combination.  Concretely, `decode('{"u": "\u0041\u00DF"}')`
yields `{u: "Aß"}`, and the adjacent surrogate escapes `\uD800\uDC00`
decode to the two separate code points U+D800, U+DC00 (not the combined
astral U+10000). -/
theorem c9_escapes_decoded_independently :
    (∀ h1 h2 h3 h4 rest n, pyHex4 h1 h2 h3 h4 = some n →
      strLoop (0x5C :: 0x75 :: h1 :: h2 :: h3 :: h4 :: rest) =
        (strLoop rest).map (fun p => (n :: p.1, p.2))) ∧
    decode (pyStr "\x7b\"u\": \"\\u0041\\u00DF\"\x7d") =
      some (.ok (.obj [(pyStr "u", .str (pyStr "Aß"))])) ∧
    decode (pyStr "\"\\uD800\\uDC00\"") =
      some (.ok (.str [0xD800, 0xDC00])) := by
  refine ⟨?_, rfl, rfl⟩
  intro h1 h2 h3 h4 rest n hconv
  have e1 : ∃ v1, pyHexVal h1 = some v1 := by
    simp only [pyHex4] at hconv
    rcases hv : pyHexVal h1 with _ | v
    · rw [hv] at hconv; simp at hconv
    · exact ⟨v, rfl⟩
  have e2 : ∃ v2, pyHexVal h2 = some v2 := by
    simp only [pyHex4] at hconv
    rcases hv : pyHexVal h2 with _ | v
    · rw [hv] at hconv
      rcases pyHexVal h1 <;> simp at hconv
    · exact ⟨v, rfl⟩
  have e3 : ∃ v3, pyHexVal h3 = some v3 := by
    simp only [pyHex4] at hconv
    rcases hv : pyHexVal h3 with _ | v
    · rw [hv] at hconv
      rcases pyHexVal h1 <;> rcases pyHexVal h2 <;> simp at hconv
    · exact ⟨v, rfl⟩
  have e4 : ∃ v4, pyHexVal h4 = some v4 := by
    simp only [pyHex4] at hconv
    rcases hv : pyHexVal h4 with _ | v
    · rw [hv] at hconv
      rcases pyHexVal h1 <;> rcases pyHexVal h2 <;> rcases pyHexVal h3 <;>
        simp at hconv
    · exact ⟨v, rfl⟩
  obtain ⟨v1, hv1⟩ := e1
  obtain ⟨v2, hv2⟩ := e2
  obtain ⟨v3, hv3⟩ := e3
  obtain ⟨v4, hv4⟩ := e4
  have hok : (hexOk h1 && hexOk h2 && hexOk h3 && hexOk h4) = true := by
    rw [hexOk_of_pyHexVal hv1, hexOk_of_pyHexVal hv2, hexOk_of_pyHexVal hv3,
      hexOk_of_pyHexVal hv4]
    rfl
  simp [strLoop, hok, hconv]

theorem c9_escapes_decoded_independently_witness :
    strLoop (0x5C :: 0x75 :: 0x30 :: 0x30 :: 0x34 :: 0x31 :: [0x22]) =
      (strLoop [0x22]).map (fun p => (0x41 :: p.1, p.2)) :=
  c9_escapes_decoded_independently.1 0x30 0x30 0x34 0x31 [0x22] 0x41 rfl

/-! ## C2 and C3: the number grammar -/

/-- Strings accepted by the digit-run part of `int()` consist of underscores
and decimal digits. -/
theorem pyDigitsRest_mem :
    ∀ (l : List Nat) (du : Bool) (acc n : Nat),
      pyDigitsRest l du acc = some n →
      ∀ c ∈ l, c = 0x5F ∨ (pyNdVal c).isSome = true := by
  intro l
  induction l with
  | nil =>
    intro du acc n h c hc
    simp at hc
  | cons c0 rest ih =>
    intro du acc n h c hc
    rcases hnd : pyNdVal c0 with _ | d
    · rw [pyDigitsRest, hnd] at h
      split_ifs at h with hu
      · rw [List.mem_cons] at hc
        rcases hc with rfl | hc
        · left; exact hu.1
        · exact ih false acc n h c hc
    · rw [pyDigitsRest, hnd] at h
      rw [List.mem_cons] at hc
      rcases hc with rfl | hc
      · right; simp [hnd]
      · exact ih true (acc * 10 + d) n h c hc

/-- Strings accepted by the unsigned part of `int()` consist of underscores
and decimal digits. -/
theorem pyIntAbs_mem {l : List Nat} {n : Nat} (h : pyIntAbs l = some n) :
    ∀ c ∈ l, c = 0x5F ∨ (pyNdVal c).isSome = true := by
  intro c hc
  rcases l with _ | ⟨d, ds⟩
  · simp at hc
  · rcases hd : pyNdVal d with _ | v
    · rw [pyIntAbs, hd] at h; simp at h
    · rw [pyIntAbs, hd] at h
      rw [List.mem_cons] at hc
      rcases hc with rfl | hc
      · right; simp [hd]
      · exact pyDigitsRest_mem ds true v n h c hc

/-- Strings accepted by `int()` after stripping consist of signs,
underscores and decimal digits. -/
theorem pyIntCore_mem {l : List Nat} {n : Int} (h : pyIntCore l = some n) :
    ∀ c ∈ l, c = 0x2B ∨ c = 0x2D ∨ c = 0x5F ∨ (pyNdVal c).isSome = true := by
  intro c hc
  rcases l with _ | ⟨c0, rest⟩
  · simp at hc
  · simp only [pyIntCore] at h
    split_ifs at h with h1 h2
    · rcases hm : pyIntAbs rest with _ | m
      · rw [hm] at h; simp at h
      · rw [List.mem_cons] at hc
        rcases hc with rfl | hc
        · right; left; exact h1
        · have := pyIntAbs_mem hm c hc; tauto
    · rcases hm : pyIntAbs rest with _ | m
      · rw [hm] at h; simp at h
      · rw [List.mem_cons] at hc
        rcases hc with rfl | hc
        · left; exact h2
        · have := pyIntAbs_mem hm c hc; tauto
    · rcases hm : pyIntAbs (c0 :: rest) with _ | m
      · rw [hm] at h; simp at h
      · have := pyIntAbs_mem hm c hc; tauto

/-- Membership survives `dropWhile` for elements the predicate rejects. -/
theorem mem_dropWhile_of_neg {p : Nat → Bool} {c : Nat} :
    ∀ l : List Nat, c ∈ l → p c = false → c ∈ l.dropWhile p := by
  intro l
  induction l with
  | nil => intro h; simp at h
  | cons a t ih =>
    intro hm hp
    rcases hpa : p a with _ | _
    · rw [List.dropWhile_cons_of_neg (by simp [hpa])]
      exact hm
    · rw [List.dropWhile_cons_of_pos (by simp [hpa])]
      rw [List.mem_cons] at hm
      rcases hm with rfl | hm
      · rw [hp] at hpa; cases hpa
      · exact ih hm hp

/-- Membership survives Python's whitespace stripping for non-whitespace
characters. -/
theorem mem_pyStrip {c : Nat} {l : List Nat} (hm : c ∈ l)
    (hp : pyIsSpace c = false) :
    c ∈ ((l.dropWhile pyIsSpace).reverse.dropWhile pyIsSpace).reverse := by
  rw [List.mem_reverse]
  exact mem_dropWhile_of_neg _ (List.mem_reverse.mpr
    (mem_dropWhile_of_neg _ hm hp)) hp

/-- Python's `int()` rejects any string containing `e` or `E`. -/
theorem pyInt_none_of_eE {s : List Nat} (h : 0x65 ∈ s ∨ 0x45 ∈ s) :
    pyInt s = none := by
  rcases hi : pyInt s with _ | n
  · rfl
  · exfalso
    rw [pyInt] at hi
    rcases h with h | h
    · have hm := mem_pyStrip h (by rfl)
      have := pyIntCore_mem hi 0x65 hm
      simp [show pyNdVal 0x65 = none from by decide] at this
    · have hm := mem_pyStrip h (by rfl)
      have := pyIntCore_mem hi 0x45 hm
      simp [show pyNdVal 0x45 = none from by decide] at this

/-- A list whose `contains` is false does not contain the element. -/
theorem not_mem_of_contains_false {s : List Nat} {a : Nat}
    (h : s.contains a = false) : a ∉ s := by
  intro hm
  have ht : s.contains a = true := by
    simpa [List.contains] using List.elem_iff.mpr hm
  rw [h] at ht
  cases ht

/-- C3 (amended).  A number token containing `e` or `E` but no dot is
converted with Python's `int()`, which rejects it, so decode fails with
InvalidNumber (either message `"Invalid number"` from the failed
conversion, or `"Number cannot begin with 0"` when the token also starts
with a leading zero); in particular `1e10` and `-2E-5` fail.  But a token
containing `e`/`E` *and* a dot is converted with Python's `float()`, which
accepts exponent notation, so such numbers are successfully decoded —
exponent notation is not always rejected. -/
theorem c3_exponent_tokens :
    (∀ l s rest, collectTok l = (s, rest) → (0x65 ∈ s ∨ 0x45 ∈ s) →
      s.contains 0x2E = false →
      parseNumberFn l = .error (.json "Number cannot begin with 0") ∨
      parseNumberFn l = .error (.json "Invalid number")) ∧
    decode (pyStr "1e10") = some (.error (.json "Invalid number")) ∧
    decode (pyStr "-2E-5") = some (.error (.json "Invalid number")) := by
  refine ⟨?_, rfl, rfl⟩
  intro l s rest hcol he hdot
  have hne : s ≠ [] := by
    rintro rfl
    rcases he with he | he <;> simp at he
  have hint : pyInt s = none := pyInt_none_of_eE he
  simp only [parseNumberFn, hcol]
  rcases hlast : s.getLast? with _ | last
  · rw [List.getLast?_eq_none_iff] at hlast
    exact absurd hlast hne
  · have hlmem : last ∈ s :=
      List.mem_of_mem_getLast? (by simp [hlast])
    have hld : ¬last = 0x2E := by
      rintro rfl
      exact not_mem_of_contains_false hdot hlmem
    have hdotm : (0x2E : Nat) ∉ s := not_mem_of_contains_false hdot
    rcases s with _ | ⟨a, _ | ⟨b, t⟩⟩
    · exact absurd rfl hne
    · right
      simp [hlast, hld, hint]
      intro h
      subst h
      simp at hdotm
    · by_cases hz : a = 0x30 ∧ pyIsNumeric b = true
      · obtain ⟨ha, hb⟩ := hz
        subst ha
        left
        simp only [hlast]
        simp [hld, hb]
      · rw [Classical.not_and_iff_or_not_not] at hz
        right
        simp only [hlast]
        rcases hz with hz | hz
        · simp [hld, hint, hz]
          intro h
          exact absurd (by simpa using h) hdotm
        · simp [hld, hint, hz]
          intro h
          exact absurd (by simpa using h) hdotm

theorem c3_exponent_tokens_witness :
    parseNumberFn (pyStr "1e10") = .error (.json "Number cannot begin with 0") ∨
      parseNumberFn (pyStr "1e10") = .error (.json "Invalid number") :=
  c3_exponent_tokens.1 (pyStr "1e10") (pyStr "1e10") [] rfl
    (Or.inl (by simp [pyStr])) rfl

/-- C3, counterexample to the claim as stated: the token `1.5e3` contains
`e`, yet decode succeeds — the token contains a dot, so it is converted with
Python's `float("1.5e3")`, which accepts exponent notation and yields the
float 1500.0 (represented here by its source token). -/
theorem c3_exponent_float_counterexample :
    decode (pyStr "1.5e3") = some (.ok (.flt (pyStr "1.5e3"))) := rfl

/-- C2 (amended).  The leading-zero check fires exactly on a collected token
whose first character is `0` and whose second satisfies Python's
`isnumeric`: such inputs fail with InvalidNumber (message `"Number cannot
begin with 0"`, or `"Dot cannot be in the end"` when the token also ends
with a dot).  `01` and `00.1` are rejected, `0.5` and `0.01` accepted.  A
leading minus defeats the check — the token then starts with `-`, not `0` —
and Python's `int()` accepts leading zeros, so `-01` is *not* rejected. -/
theorem c2_leading_zero_check :
    (∀ l b t rest, collectTok l = (0x30 :: b :: t, rest) →
      pyIsNumeric b = true →
      parseNumberFn l = .error (.json "Dot cannot be in the end") ∨
      parseNumberFn l = .error (.json "Number cannot begin with 0")) ∧
    decode (pyStr "01") = some (.error (.json "Number cannot begin with 0")) ∧
    decode (pyStr "00.1") = some (.error (.json "Number cannot begin with 0")) ∧
    decode (pyStr "0.5") = some (.ok (.flt (pyStr "0.5"))) ∧
    decode (pyStr "0.01") = some (.ok (.flt (pyStr "0.01"))) := by
  refine ⟨?_, rfl, rfl, rfl, rfl⟩
  intro l b t rest hcol hb
  simp only [parseNumberFn, hcol]
  rcases hlast : (0x30 :: b :: t).getLast? with _ | last
  · rw [List.getLast?_eq_none_iff] at hlast
    simp at hlast
  · by_cases hld : last = 0x2E
    · left
      simp [hlast, hld]
    · right
      simp [hlast, hld, hb]

theorem c2_leading_zero_check_witness :
    parseNumberFn (pyStr "01") = .error (.json "Dot cannot be in the end") ∨
      parseNumberFn (pyStr "01") = .error (.json "Number cannot begin with 0") :=
  c2_leading_zero_check.1 (pyStr "01") 0x31 [] [] rfl rfl

/-- C2, counterexample to the claim as stated: `-01` has a leading zero
after the minus sign, yet decode does not fail with InvalidNumber — the
leading-zero check only inspects the token's first character, which is `-`,
and Python's `int("-01")` evaluates to -1. -/
theorem c2_minus_leading_zero_counterexample :
    decode (pyStr "-01") = some (.ok (.int (-1))) := rfl

/-! ## C8: whitespace handling and the trailing-garbage check -/

/-- Skipping whitespace ignores a prepended all-whitespace run. -/
theorem skipWs_ws_app {w : List Nat} (s : List Nat)
    (hw : ∀ c ∈ w, isWs4 c = true) : skipWs (w ++ s) = skipWs s := by
  induction w with
  | nil => rfl
  | cons a t ih =>
    rw [List.cons_append, skipWs,
      List.dropWhile_cons_of_pos (by simp [hw a (by simp)])]
    exact ih (fun c hc => hw c (by simp [hc]))

/-- Success of the fueled parsers is preserved by increasing fuel. -/
theorem parse_fuel_mono :
    ∀ f,
      (∀ l r, parseOne f l = some r → parseOne (f + 1) l = some r) ∧
      (∀ acc l r, objLoop f acc l = some r → objLoop (f + 1) acc l = some r) ∧
      (∀ acc l r, arrLoop f acc l = some r → arrLoop (f + 1) acc l = some r) := by
  intro f
  induction f with
  | zero =>
    refine ⟨?_, ?_, ?_⟩
    · intro l r h; simp [parseOne] at h
    · intro acc l r h; simp [objLoop] at h
    · intro acc l r h; simp [arrLoop] at h
  | succ f ih =>
    obtain ⟨ih1, ih2, ih3⟩ := ih
    refine ⟨?_, ?_, ?_⟩
    · intro l r h
      rw [parseOne] at h ⊢
      rcases hh : l.head? with _ | c
      · rw [hh] at h
        exact h
      · rw [hh] at h
        simp only [] at h ⊢
        split_ifs at h ⊢
        · exact ih2 _ _ _ h
        · exact ih3 _ _ _ h
        · exact h
        · exact h
        · exact h
        · exact h
    · intro acc l r h
      rw [objLoop] at h ⊢
      rcases hh : (skipWs l).head? with _ | c
      · rw [hh] at h
        exact h
      · rw [hh] at h
        simp only [] at h ⊢
        split_ifs at h ⊢
        · exact h
        · exact h
        · rcases hs : parseStringFn (skipWs l) with e | ⟨key, l2⟩ <;> rw [hs] at h
          · exact h
          · simp only [] at h ⊢
            split_ifs at h ⊢
            · rcases hp : parseOne f (skipWs ((skipWs l2).drop 1)) with _ | x
              · rw [hp] at h; exact absurd h (by simp)
              · rw [hp] at h
                rw [ih1 _ _ hp]
                rcases x with e | ⟨v, l5⟩
                · exact h
                · simp only [] at h ⊢
                  split_ifs at h ⊢
                  · exact h
                  · exact h
                  · exact ih2 _ _ _ h
                  · exact ih2 _ _ _ h
                  · exact h
            · exact h
    · intro acc l r h
      rw [arrLoop] at h ⊢
      rcases hh : (skipWs l).head? with _ | c
      · rw [hh] at h
        exact h
      · rw [hh] at h
        simp only [] at h ⊢
        split_ifs at h ⊢
        · exact h
        · rcases hp : parseOne f (skipWs l) with _ | x
          · rw [hp] at h; exact absurd h (by simp)
          · rw [hp] at h
            rw [ih1 _ _ hp]
            rcases x with e | ⟨v, l2⟩
            · exact h
            · simp only [] at h ⊢
              split_ifs at h ⊢
              · exact h
              · exact h
              · exact ih3 _ _ _ h
              · exact ih3 _ _ _ h
              · exact h

/-- Monotonicity in the fuel order. -/
theorem parseOne_mono_le {f g : Nat} {l : List Nat}
    {r : Except JErr (JVal × List Nat)} (hfg : f ≤ g)
    (h : parseOne f l = some r) : parseOne g l = some r := by
  obtain ⟨d, rfl⟩ := Nat.exists_eq_add_of_le hfg
  clear hfg
  induction d with
  | zero => exact h
  | succ d ih =>
    exact (parse_fuel_mono (f + d)).1 _ _ ih

/-- C8.  `decode` skips leading whitespace, parses exactly one value, skips
trailing whitespace, and fails with ExtraCharactersAfterValue (message
`"Extra characters after JSON"`) if any character remains:
`decode('   {  }  ')` is the empty object, `decode('{} trailing')` fails,
and prepending any run of the four whitespace characters to an input never
changes the result of a successful or failing decode. -/
theorem c8_whitespace_and_trailing :
    decode (pyStr "   \x7b  \x7d  ") = some (.ok (.obj [])) ∧
    decode (pyStr "\x7b\x7d trailing") =
      some (.error (.json "Extra characters after JSON")) ∧
    (∀ w s r, (∀ c ∈ w, isWs4 c = true) → decode s = some r →
      decode (w ++ s) = some r) := by
  refine ⟨rfl, rfl, ?_⟩
  intro w s r hw h
  rw [decode] at h ⊢
  rw [skipWs_ws_app s hw]
  rcases hp : parseOne (s.length + 1) (skipWs s) with _ | x
  · rw [hp] at h; exact absurd h (by simp)
  · rw [hp] at h
    have hp2 : parseOne ((w ++ s).length + 1) (skipWs s) = some x :=
      parseOne_mono_le (by simp) hp
    rw [hp2]
    exact h

theorem c8_whitespace_and_trailing_witness :
    decode (pyStr " 1") = some (.ok (.int 1)) :=
  c8_whitespace_and_trailing.2.2 [0x20] (pyStr "1") (.ok (.int 1))
    (by intro c hc; simp at hc; subst hc; rfl) rfl

/-! ## C1: machinery for the reference-equivalence proof -/

/-- The head of a whitespace-skipped list is not whitespace. -/
theorem skipWs_head_not_ws {l : List Nat} {c : Nat}
    (h : (skipWs l).head? = some c) : isWs4 c = false := by
  have := List.head?_dropWhile_not isWs4 l
  rw [skipWs] at h
  rw [h] at this
  exact this

/-- Skipping whitespace is idempotent. -/
theorem skipWs_idem (l : List Nat) : skipWs (skipWs l) = skipWs l := by
  rcases he : skipWs l with _ | ⟨c0, t⟩
  · rfl
  · have hnw : isWs4 c0 = false :=
      @skipWs_head_not_ws l c0 (by rw [he]; rfl)
    rw [skipWs, List.dropWhile_cons_of_neg (by simp [hnw])]

/-- Skipping whitespace does not lengthen a list. -/
theorem skipWs_length_le (l : List Nat) : (skipWs l).length ≤ l.length :=
  (List.dropWhile_suffix isWs4).sublist.length_le

/-- The four ASCII whitespace characters are Python whitespace. -/
theorem isWs4_pyIsSpace {c : Nat} (h : isWs4 c = true) : pyIsSpace c = true := by
  simp only [isWs4, Bool.or_eq_true, beq_iff_eq] at h
  simp only [pyIsSpace, Bool.or_eq_true, Bool.and_eq_true, decide_eq_true_eq,
    beq_iff_eq]
  omega

/-- If the input after skipping whitespace starts with a delimiter, the
unskipped input satisfies `followOk`. -/
theorem followOk_of_skip {x : List Nat} {c : Nat}
    (h : (skipWs x).head? = some c) (hc : stopChar c = true) :
    followOk x = true := by
  rcases x with _ | ⟨c0, t⟩
  · simp [skipWs] at h
  · rcases hw : isWs4 c0 with _ | _
    · rw [skipWs, List.dropWhile_cons_of_neg (by simp [hw])] at h
      simp at h
      subst h
      simp [followOk, hc]
    · simp [followOk, stopChar, isWs4_pyIsSpace hw]

/-- If the input is all whitespace after skipping, it satisfies `followOk`. -/
theorem followOk_of_skip_nil {x : List Nat} (h : skipWs x = []) :
    followOk x = true := by
  rcases x with _ | ⟨c0, t⟩
  · rfl
  · rcases hw : isWs4 c0 with _ | _
    · rw [skipWs, List.dropWhile_cons_of_neg (by simp [hw])] at h
      cases h
    · simp [followOk, stopChar, isWs4_pyIsSpace hw]

/-- Greedy collection of a delimiter-free token stops exactly at a
`followOk` rest. -/
theorem collectTok_append {tok rest : List Nat}
    (htok : ∀ c ∈ tok, stopChar c = false) (hrest : followOk rest = true) :
    collectTok (tok ++ rest) = (tok, rest) := by
  induction tok with
  | nil =>
    simp only [List.nil_append]
    rcases rest with _ | ⟨c, t⟩
    · rfl
    · simp only [followOk, List.head?_cons] at hrest
      simp [collectTok, hrest]
  | cons a t ih =>
    rw [List.cons_append, collectTok_cons _ (htok a (by simp)),
      ih (fun c hc => htok c (by simp [hc]))]

/-- ASCII digits are in the Python digit table, with their value. -/
theorem pyNdVal_ascii {c : Nat} (h : asciiDigit c = true) :
    pyNdVal c = some (c - 0x30) := by
  simp only [asciiDigit, Bool.and_eq_true, decide_eq_true_eq] at h
  rw [pyNdVal, ndStarts, List.find?_cons_of_pos _ (by
    simp only [Bool.and_eq_true, decide_eq_true_eq]
    omega)]
  rfl

/-- ASCII digits satisfy Python's `isdigit`. -/
theorem asciiDigit_pyIsDigit {c : Nat} (h : asciiDigit c = true) :
    pyIsDigit c = true := by
  simp [pyIsDigit, pyNdVal_ascii h]

/-- Simulation of the literal parser: each exact literal with a delimiter
following collects to exactly itself. -/
theorem parseLiteral_true {rest : List Nat} (h : followOk rest = true) :
    parseLiteralFn (pyStr "true" ++ rest) = .ok (.bool true, rest) := by
  have hcol := @collectTok_append (pyStr "true") rest (by decide) h
  simp [parseLiteralFn, hcol]

/-- Simulation of the literal parser for `false`. -/
theorem parseLiteral_false {rest : List Nat} (h : followOk rest = true) :
    parseLiteralFn (pyStr "false" ++ rest) = .ok (.bool false, rest) := by
  have hcol := @collectTok_append (pyStr "false") rest (by decide) h
  simp [parseLiteralFn, hcol, show pyStr "false" ≠ pyStr "true" from by decide]

/-- Simulation of the literal parser for `null`. -/
theorem parseLiteral_null {rest : List Nat} (h : followOk rest = true) :
    parseLiteralFn (pyStr "null" ++ rest) = .ok (.null, rest) := by
  have hcol := @collectTok_append (pyStr "null") rest (by decide) h
  simp [parseLiteralFn, hcol, show pyStr "null" ≠ pyStr "true" from by decide,
    show pyStr "null" ≠ pyStr "false" from by decide]

/-- The code's literal parser agrees with the reference literal grammar when
a delimiter follows. -/
theorem refLit_sim {l : List Nat} {v : JVal} {rest : List Nat}
    (h : refLit l = some (v, rest)) (hf : followOk rest = true) :
    parseLiteralFn l = .ok (v, rest) := by
  unfold refLit at h
  split_ifs at h with h1 h2 h3
  · obtain ⟨t, rfl⟩ := List.isPrefixOf_iff_prefix.mp h1
    rw [show (pyStr "true" ++ t).drop 4 = t from List.drop_left (pyStr "true") t] at h
    simp only [Option.some.injEq, Prod.mk.injEq] at h
    obtain ⟨rfl, rfl⟩ := h
    exact parseLiteral_true hf
  · obtain ⟨t, rfl⟩ := List.isPrefixOf_iff_prefix.mp h2
    rw [show (pyStr "false" ++ t).drop 5 = t from List.drop_left (pyStr "false") t] at h
    simp only [Option.some.injEq, Prod.mk.injEq] at h
    obtain ⟨rfl, rfl⟩ := h
    exact parseLiteral_false hf
  · obtain ⟨t, rfl⟩ := List.isPrefixOf_iff_prefix.mp h3
    rw [show (pyStr "null" ++ t).drop 4 = t from List.drop_left (pyStr "null") t] at h
    simp only [Option.some.injEq, Prod.mk.injEq] at h
    obtain ⟨rfl, rfl⟩ := h
    exact parseLiteral_null hf

/-- ASCII digits are not Python whitespace. -/
theorem digit_not_space {c : Nat} (h : asciiDigit c = true) :
    pyIsSpace c = false :=
  pyIsDigit_not_space (asciiDigit_pyIsDigit h)

/-- A list whose head fails the predicate is unchanged by `dropWhile`. -/
theorem dropWhile_eq_self_of_all {p : Nat → Bool} {l : List Nat}
    (h : ∀ c ∈ l, p c = false) : l.dropWhile p = l := by
  rcases l with _ | ⟨a, t⟩
  · rfl
  · exact List.dropWhile_cons_of_neg (by simp [h a (by simp)])

/-- Whitespace stripping leaves a space-free list unchanged. -/
theorem strip_eq_self {l : List Nat} (h : ∀ c ∈ l, pyIsSpace c = false) :
    ((l.dropWhile pyIsSpace).reverse.dropWhile pyIsSpace).reverse = l := by
  rw [dropWhile_eq_self_of_all h,
    dropWhile_eq_self_of_all (fun c hc => h c (List.mem_reverse.mp hc)),
    List.reverse_reverse]

/-- The digit-run part of `int()` on a pure ASCII digit string computes the
positional value. -/
theorem pyDigitsRest_digits {ds : List Nat}
    (h : ∀ c ∈ ds, asciiDigit c = true) :
    ∀ acc, pyDigitsRest ds true acc = some (digitsVal ds acc) := by
  induction ds with
  | nil => intro acc; rfl
  | cons d t ih =>
    intro acc
    rw [pyDigitsRest, pyNdVal_ascii (h d (by simp))]
    exact ih (fun c hc => h c (by simp [hc])) _

/-- Python's `int()` on an ASCII digit string. -/
theorem pyInt_digits {d0 : Nat} {dt : List Nat}
    (h : ∀ c ∈ d0 :: dt, asciiDigit c = true) :
    pyInt (d0 :: dt) = some ((digitsVal (d0 :: dt) 0 : Nat) : Int) := by
  have hd0 := h d0 (by simp)
  have h48 : 0x30 ≤ d0 ∧ d0 ≤ 0x39 := by
    simpa [asciiDigit] using hd0
  have hdt : ∀ c ∈ dt, asciiDigit c = true :=
    fun c hc => h c (List.mem_cons_of_mem _ hc)
  rw [pyInt, strip_eq_self (fun c hc => digit_not_space (h c hc)), pyIntCore,
    if_neg (by omega), if_neg (by omega), pyIntAbs, pyNdVal_ascii hd0]
  simp [pyDigitsRest_digits hdt, digitsVal]

/-- Python's `int()` on a minus sign followed by an ASCII digit string. -/
theorem pyInt_neg_digits {d0 : Nat} {dt : List Nat}
    (h : ∀ c ∈ d0 :: dt, asciiDigit c = true) :
    pyInt (0x2D :: d0 :: dt) = some (-((digitsVal (d0 :: dt) 0 : Nat) : Int)) := by
  have hsp : ∀ c ∈ 0x2D :: d0 :: dt, pyIsSpace c = false := by
    intro c hc
    rcases List.mem_cons.mp hc with rfl | hc
    · rfl
    · exact digit_not_space (h c hc)
  have hdt : ∀ c ∈ dt, asciiDigit c = true :=
    fun c hc => h c (List.mem_cons_of_mem _ hc)
  rw [pyInt, strip_eq_self hsp, pyIntCore, if_pos rfl, pyIntAbs,
    pyNdVal_ascii (h d0 (by simp))]
  simp [pyDigitsRest_digits hdt, digitsVal]

/-- Decomposition of the greedy ASCII digit run. -/
theorem takeDigits_spec :
    ∀ l : List Nat,
      l = (takeDigits l).1 ++ (takeDigits l).2 ∧
      (∀ c ∈ (takeDigits l).1, asciiDigit c = true) ∧
      (∀ c, (takeDigits l).2.head? = some c → asciiDigit c = false) := by
  intro l
  induction l with
  | nil => exact ⟨rfl, by simp [takeDigits], by simp [takeDigits]⟩
  | cons a t ih =>
    obtain ⟨ih1, ih2, ih3⟩ := ih
    rcases htd : takeDigits t with ⟨ds, r⟩
    rw [htd] at ih1 ih2 ih3
    by_cases ha : asciiDigit a = true
    · have : takeDigits (a :: t) = (a :: ds, r) := by
        simp [takeDigits, ha, htd]
      rw [this]
      refine ⟨by simpa using congrArg (a :: ·) ih1, ?_, by simpa using ih3⟩
      intro c hc
      rcases List.mem_cons.mp hc with rfl | hc
      · exact ha
      · exact ih2 c hc
    · have : takeDigits (a :: t) = ([], a :: t) := by
        simp [takeDigits, ha]
      rw [this]
      refine ⟨rfl, by simp, ?_⟩
      intro c hc
      simp at hc
      subst hc
      simpa using ha

/-- One `duRun` step on a non-digit, non-underscore character. -/
theorem duRun_stop {c : Nat} (t : List Nat) (hc : pyNdVal c = none)
    (hu : c ≠ 0x5F) : duRun (c :: t) = (0, c :: t) := by
  rcases t with _ | ⟨t0, t'⟩ <;> simp [duRun, hc, hu]

/-- One `duRun` step on a digit. -/
theorem duRun_digit {c v k : Nat} {t r : List Nat} (hc : pyNdVal c = some v)
    (hk : duRun t = (k, r)) : duRun (c :: t) = (k + 1, r) := by
  rcases t with _ | ⟨t0, t'⟩
  · have hk2 : ((0 : Nat), ([] : List Nat)) = (k, r) := by rw [← hk]; rfl
    injection hk2 with h1 h2
    subst h1
    subst h2
    simp [duRun, hc]
  · simp [duRun, hc, hk]

/-- A pure ASCII digit run followed by a non-digit (or nothing) is consumed
exactly by `duRun`. -/
theorem duRun_digits {ds r : List Nat} (hds : ∀ c ∈ ds, asciiDigit c = true)
    (hr : r = [] ∨ ∃ c t, r = c :: t ∧ pyNdVal c = none ∧ c ≠ 0x5F) :
    duRun (ds ++ r) = (ds.length, r) := by
  induction ds with
  | nil =>
    rcases hr with rfl | ⟨c, t, rfl, hc, hu⟩
    · rfl
    · simpa using duRun_stop t hc hu
  | cons d t ih =>
    have ih2 := ih (fun c hc => hds c (List.mem_cons_of_mem _ hc))
    rw [List.cons_append]
    rw [duRun_digit (pyNdVal_ascii (hds d (by simp))) ih2]
    simp

/-- A pure ASCII digit run followed by a non-digit (or nothing) is consumed
exactly by `duStart`. -/
theorem duStart_digits {ds r : List Nat} (hds : ∀ c ∈ ds, asciiDigit c = true)
    (hr : r = [] ∨ ∃ c t, r = c :: t ∧ pyNdVal c = none ∧ c ≠ 0x5F) :
    duStart (ds ++ r) = (ds.length, r) := by
  rcases ds with _ | ⟨d, dt⟩
  · rcases hr with rfl | ⟨c, t, rfl, hc, hu⟩
    · rfl
    · simp [duStart, hc]
  · have hnd := pyNdVal_ascii (hds d (by simp))
    have hrun : duRun (dt ++ r) = (dt.length, r) :=
      duRun_digits (fun c hc => hds c (by simp [hc])) hr
    simp [duStart, hnd, hrun]

/-- Python's `float()` accepts every token of the restricted float grammar:
optional minus, digits, dot, digits. -/
theorem pyFloat_grammar {neg : Bool} {ds fs : List Nat}
    (hds : ∀ c ∈ ds, asciiDigit c = true) (hfs : ∀ c ∈ fs, asciiDigit c = true)
    (hdne : ds ≠ []) :
    pyFloatAccepts ((if neg then [0x2D] else []) ++ ds ++ 0x2E :: fs) = true := by
  rcases ds with _ | ⟨d0, dt⟩
  · exact absurd rfl hdne
  have h48 : 0x30 ≤ d0 ∧ d0 ≤ 0x39 := by
    simpa [asciiDigit] using hds d0 (by simp)
  have hsp0 : ∀ c ∈ (d0 :: dt) ++ 0x2E :: fs, pyIsSpace c = false := by
    intro c hc
    rcases List.mem_append.mp hc with hc | hc
    · exact digit_not_space (hds c hc)
    · rcases List.mem_cons.mp hc with rfl | hc
      · rfl
      · exact digit_not_space (hfs c hc)
  have hd1 : duStart ((d0 :: dt) ++ 0x2E :: fs) = ((d0 :: dt).length, 0x2E :: fs) :=
    duStart_digits hds (Or.inr ⟨0x2E, fs, rfl, rfl, by omega⟩)
  have hd2 : duStart fs = (fs.length, []) := by
    have := @duStart_digits fs [] hfs (Or.inl rfl)
    simpa using this
  have hcore : pyFloatCore ((d0 :: dt) ++ 0x2E :: fs) = true := by
    rw [pyFloatCore]
    simp only [hd1, hd2]
    simp
  have hlow : asciiLower d0 = d0 := by
    unfold asciiLower
    rw [if_neg (by omega)]
  have hN : ¬((((d0 :: dt) ++ 0x2E :: fs).map asciiLower) = pyStr "inf" ∨
      (((d0 :: dt) ++ 0x2E :: fs).map asciiLower) = pyStr "infinity" ∨
      (((d0 :: dt) ++ 0x2E :: fs).map asciiLower) = pyStr "nan") := by
    intro h
    rcases h with he | he | he
    · rw [List.cons_append, List.map_cons, hlow,
        show pyStr "inf" = [0x69, 0x6E, 0x66] from rfl] at he
      injection he with h1 _
      omega
    · rw [List.cons_append, List.map_cons, hlow,
        show pyStr "infinity" = [0x69, 0x6E, 0x66, 0x69, 0x6E, 0x69, 0x74, 0x79]
          from rfl] at he
      injection he with h1 _
      omega
    · rw [List.cons_append, List.map_cons, hlow,
        show pyStr "nan" = [0x6E, 0x61, 0x6E] from rfl] at he
      injection he with h1 _
      omega
  rcases neg with _ | _
  · show pyFloatAccepts ((d0 :: dt) ++ 0x2E :: fs) = true
    rw [pyFloatAccepts, strip_eq_self hsp0, List.cons_append, List.head?_cons]
    have hno : ¬(some d0 = some (0x2B : Nat) ∨ some d0 = some (0x2D : Nat)) := by
      intro hcon
      rcases hcon with hcon | hcon <;> (simp at hcon; omega)
    rw [if_neg hno, if_neg (by rw [List.cons_append] at hN; exact hN)]
    exact hcore
  · show pyFloatAccepts (0x2D :: ((d0 :: dt) ++ 0x2E :: fs)) = true
    have hsp1 : ∀ c ∈ 0x2D :: ((d0 :: dt) ++ 0x2E :: fs), pyIsSpace c = false := by
      intro c hc
      rcases List.mem_cons.mp hc with rfl | hc
      · rfl
      · exact hsp0 c hc
    rw [pyFloatAccepts, strip_eq_self hsp1, List.head?_cons]
    rw [if_pos (Or.inr rfl),
      show (0x2D :: ((d0 :: dt) ++ 0x2E :: fs)).drop 1 = (d0 :: dt) ++ 0x2E :: fs
        from rfl,
      List.cons_append]
    rw [if_neg (by rw [List.cons_append] at hN; exact hN)]
    exact hcore

/-- Membership makes `contains` true. -/
theorem contains_true_of_mem {s : List Nat} {a : Nat} (h : a ∈ s) :
    s.contains a = true := by
  simpa [List.contains] using List.elem_iff.mpr h

/-- Non-membership makes `contains` false. -/
theorem contains_false_of_not_mem {s : List Nat} {a : Nat} (h : a ∉ s) :
    s.contains a = false := by
  rcases hcb : s.contains a with _ | _
  · rfl
  · exact absurd (List.elem_iff.mp (by simpa [List.contains] using hcb)) h

/-- Characters of an integer token are not delimiters. -/
theorem int_tok_not_stop {sgn : Bool} {ds : List Nat}
    (hds : ∀ c ∈ ds, asciiDigit c = true) :
    ∀ c ∈ (if sgn then [0x2D] else []) ++ ds, stopChar c = false := by
  intro c hc
  rcases List.mem_append.mp hc with hc | hc
  · rcases sgn with _ | _
    · simp at hc
    · simp at hc
      subst hc
      rfl
  · exact pyIsDigit_not_stop (asciiDigit_pyIsDigit (hds c hc))

/-- The code's number parser on a signed integer token of the restricted
grammar followed by a delimiter. -/
theorem parseNumber_int_tok (sgn : Bool) {d0 : Nat} {dt rest : List Nat}
    (hds : ∀ c ∈ d0 :: dt, asciiDigit c = true)
    (hz : d0 = 0x30 → dt = [])
    (hf : followOk rest = true) :
    parseNumberFn ((if sgn then [0x2D] else []) ++ (d0 :: dt) ++ rest) =
      .ok (.int (if sgn then -((digitsVal (d0 :: dt) 0 : Nat) : Int)
                 else ((digitsVal (d0 :: dt) 0 : Nat) : Int)), rest) := by
  have hd0 : 0x30 ≤ d0 ∧ d0 ≤ 0x39 := by
    simpa [asciiDigit] using hds d0 (by simp)
  have hnotdot : (0x2E : Nat) ∉ (if sgn then [0x2D] else []) ++ (d0 :: dt) := by
    intro hm
    rcases List.mem_append.mp hm with hm | hm
    · rcases sgn with _ | _ <;> simp at hm
    · have := hds _ hm
      simp [asciiDigit] at this
  have hcol : collectTok (((if sgn then [0x2D] else []) ++ (d0 :: dt)) ++ rest) =
      ((if sgn then [0x2D] else []) ++ (d0 :: dt), rest) :=
    collectTok_append (int_tok_not_stop hds) hf
  simp only [parseNumberFn, hcol]
  rcases hgl : ((if sgn then [0x2D] else []) ++ (d0 :: dt)).getLast? with _ | last
  · rw [List.getLast?_eq_none_iff] at hgl
    rcases sgn with _ | _ <;> simp at hgl
  · have hlmem : last ∈ (if sgn then [0x2D] else []) ++ (d0 :: dt) :=
      List.mem_of_mem_getLast? (by simp [hgl])
    have hld : ¬ last = 0x2E := by
      intro h
      subst h
      exact hnotdot hlmem
    have hpy : pyInt ((if sgn then [0x2D] else []) ++ (d0 :: dt)) =
        some (if sgn then -((digitsVal (d0 :: dt) 0 : Nat) : Int)
              else ((digitsVal (d0 :: dt) 0 : Nat) : Int)) := by
      rcases sgn with _ | _
      · simpa using pyInt_digits hds
      · simpa using pyInt_neg_digits hds
    have h46 : ¬ d0 = 0x2E := by omega
    have h46b : ¬ (0x2E : Nat) = d0 := by omega
    rcases sgn with _ | _
    · rcases dt with _ | ⟨b, dt'⟩
      · simp at hpy
        simp [hgl, hld, hpy, hnotdot, h46, h46b]
      · have hb : (d0 == 0x30) = false := by
          rw [beq_eq_false_iff_ne]
          intro h
          cases hz h
        simp at hpy hgl hnotdot
        simp [hgl, hld, hpy, hnotdot, hb, h46, h46b]
    · simp at hpy hgl hnotdot
      simp [hgl, hld, hpy, hnotdot, h46, h46b]

/-- The code's number parser on a signed fractional token of the restricted
grammar followed by a delimiter. -/
theorem parseNumber_flt_tok (sgn : Bool) {d0 : Nat} {dt fs rest : List Nat}
    (hds : ∀ c ∈ d0 :: dt, asciiDigit c = true)
    (hfs : ∀ c ∈ fs, asciiDigit c = true) (hfne : fs ≠ [])
    (hz : d0 = 0x30 → dt = [])
    (hf : followOk rest = true) :
    parseNumberFn (((if sgn then [0x2D] else []) ++ (d0 :: dt) ++ 0x2E :: fs) ++ rest) =
      .ok (.flt ((if sgn then [0x2D] else []) ++ (d0 :: dt) ++ 0x2E :: fs), rest) := by
  rcases fs with _ | ⟨f0, ft⟩
  · exact absurd rfl hfne
  have hd0 : 0x30 ≤ d0 ∧ d0 ≤ 0x39 := by
    simpa [asciiDigit] using hds d0 (by simp)
  have htokstop : ∀ c ∈ (if sgn then [0x2D] else []) ++ (d0 :: dt) ++ 0x2E :: f0 :: ft,
      stopChar c = false := by
    intro c hc
    rcases List.mem_append.mp hc with hc | hc
    · exact int_tok_not_stop hds c hc
    · rcases List.mem_cons.mp hc with rfl | hc
      · rfl
      · exact pyIsDigit_not_stop (asciiDigit_pyIsDigit (hfs c hc))
  have hcol := collectTok_append htokstop hf
  simp only [parseNumberFn, hcol]
  have hmem46 : (0x2E : Nat) ∈ (if sgn then [0x2D] else []) ++ (d0 :: dt) ++ 0x2E :: f0 :: ft :=
    List.mem_append.mpr (Or.inr (by simp))
  have hglt : ((if sgn then [0x2D] else []) ++ (d0 :: dt) ++ 0x2E :: f0 :: ft).getLast? =
      (f0 :: ft).getLast? := by
    rw [List.getLast?_append_of_ne_nil _ (by simp), List.getLast?_cons_cons]
  rcases hgl : (f0 :: ft).getLast? with _ | last
  · rw [List.getLast?_eq_none_iff] at hgl
    cases hgl
  · rw [hgl] at hglt
    have hlmem : last ∈ f0 :: ft := List.mem_of_mem_getLast? (by simp [hgl])
    have hld : ¬ last = 0x2E := by
      have := hfs last hlmem
      simp [asciiDigit] at this
      omega
    have hfloat : pyFloatAccepts
        ((if sgn then [0x2D] else []) ++ (d0 :: dt) ++ 0x2E :: f0 :: ft) = true :=
      pyFloat_grammar hds hfs (by simp)
    have h46 : ¬ d0 = 0x2E := by omega
    have h46n : pyIsNumeric 0x2E = false := rfl
    rcases sgn with _ | _
    · rcases dt with _ | ⟨b, dt'⟩
      · simp at hglt hmem46 hfloat
        simp [hglt, hld, hmem46, hfloat, h46, h46n]
      · have hb : (d0 == 0x30) = false := by
          rw [beq_eq_false_iff_ne]
          intro h
          cases hz h
        simp at hglt hmem46 hfloat
        simp [hglt, hld, hmem46, hfloat, hb, h46]
    · simp at hglt hmem46 hfloat
      simp [hglt, hld, hmem46, hfloat, h46]

/-- The code's number parser agrees with the reference number grammar when a
delimiter follows the token. -/
theorem refNum_sim {l : List Nat} {v : JVal} {r : List Nat}
    (h : refNum l = some (v, r)) (hf : followOk r = true) :
    parseNumberFn l = .ok (v, r) := by
  rw [refNum] at h
  by_cases hm : l.head? = some 0x2D
  · obtain ⟨lt, rfl⟩ : ∃ lt, l = 0x2D :: lt := by
      rcases l with _ | ⟨c0, lt⟩
      · simp at hm
      · simp at hm
        exact ⟨lt, by rw [hm]⟩
    simp only [List.head?_cons, Option.some.injEq, if_true, if_pos,
      List.drop_succ_cons, List.drop_zero] at h
    rcases htd : takeDigits lt with ⟨ds, r1⟩
    have hspec := takeDigits_spec lt
    rw [htd] at hspec h
    simp only [] at h hspec
    obtain ⟨hsplit, hdsdig, hr1h⟩ := hspec
    split_ifs at h with h1 h2 h3 h4
    · -- float branch
      rcases ds with _ | ⟨d0, dt⟩
      · exact absurd rfl h1
      obtain ⟨r1t, rfl⟩ : ∃ t, r1 = 0x2E :: t := by
        rcases r1 with _ | ⟨c, t⟩
        · simp at h3
        · simp at h3
          exact ⟨t, by rw [h3]⟩
      simp only [List.drop_succ_cons, List.drop_zero] at h h4
      rcases hfd : takeDigits r1t with ⟨fs, r3⟩
      have hspec2 := takeDigits_spec r1t
      rw [hfd] at hspec2 h h4
      simp only [] at h h4 hspec2
      obtain ⟨hsplit2, hfsdig, hr3h⟩ := hspec2
      simp only [Option.some.injEq, Prod.mk.injEq] at h
      obtain ⟨rfl, rfl⟩ := h
      have hz : d0 = 0x30 → dt = [] := by
        intro h48
        by_contra hne
        refine h2 ⟨by simp [h48], ?_⟩
        rcases dt with _ | ⟨x, xs⟩
        · exact absurd rfl hne
        · simp
      have harg : (0x2D :: lt) =
          ((if true then [0x2D] else []) ++ (d0 :: dt) ++ 0x2E :: fs) ++ r3 := by
        rw [hsplit, hsplit2]
        simp
      rw [harg]
      have := parseNumber_flt_tok true hdsdig hfsdig h4 hz hf
      simpa using this
    · -- integer branch
      rcases ds with _ | ⟨d0, dt⟩
      · exact absurd rfl h1
      simp only [Option.some.injEq, Prod.mk.injEq] at h
      obtain ⟨rfl, rfl⟩ := h
      have hz : d0 = 0x30 → dt = [] := by
        intro h48
        by_contra hne
        refine h2 ⟨by simp [h48], ?_⟩
        rcases dt with _ | ⟨x, xs⟩
        · exact absurd rfl hne
        · simp
      have harg : (0x2D :: lt) =
          ((if true then [0x2D] else []) ++ (d0 :: dt)) ++ r1 := by
        rw [hsplit]
        simp
      rw [harg]
      have := parseNumber_int_tok true hdsdig hz hf
      simpa using this
  · rw [if_neg hm] at h
    rcases htd : takeDigits l with ⟨ds, r1⟩
    have hspec := takeDigits_spec l
    rw [htd] at hspec h
    simp only [] at h hspec
    obtain ⟨hsplit, hdsdig, hr1h⟩ := hspec
    split_ifs at h with h1 h2 h3 h4
    · rcases ds with _ | ⟨d0, dt⟩
      · exact absurd rfl h1
      obtain ⟨r1t, rfl⟩ : ∃ t, r1 = 0x2E :: t := by
        rcases r1 with _ | ⟨c, t⟩
        · simp at h3
        · simp at h3
          exact ⟨t, by rw [h3]⟩
      simp only [List.drop_succ_cons, List.drop_zero] at h h4
      rcases hfd : takeDigits r1t with ⟨fs, r3⟩
      have hspec2 := takeDigits_spec r1t
      rw [hfd] at hspec2 h h4
      simp only [] at h h4 hspec2
      obtain ⟨hsplit2, hfsdig, hr3h⟩ := hspec2
      simp only [Option.some.injEq, Prod.mk.injEq] at h
      obtain ⟨rfl, rfl⟩ := h
      have hz : d0 = 0x30 → dt = [] := by
        intro h48
        by_contra hne
        refine h2 ⟨by simp [h48], ?_⟩
        rcases dt with _ | ⟨x, xs⟩
        · exact absurd rfl hne
        · simp
      have harg : l =
          ((if false then [0x2D] else []) ++ (d0 :: dt) ++ 0x2E :: fs) ++ r3 := by
        rw [hsplit, hsplit2]
        simp
      rw [harg]
      have := parseNumber_flt_tok false hdsdig hfsdig h4 hz hf
      simpa using this
    · rcases ds with _ | ⟨d0, dt⟩
      · exact absurd rfl h1
      simp only [Option.some.injEq, Prod.mk.injEq] at h
      obtain ⟨rfl, rfl⟩ := h
      have hz : d0 = 0x30 → dt = [] := by
        intro h48
        by_contra hne
        refine h2 ⟨by simp [h48], ?_⟩
        rcases dt with _ | ⟨x, xs⟩
        · exact absurd rfl hne
        · simp
      have harg : l = ((if false then [0x2D] else []) ++ (d0 :: dt)) ++ r1 := by
        rw [hsplit]
        simp
      rw [harg]
      have := parseNumber_int_tok false hdsdig hz hf
      simpa using this

/-- ASCII hex digits convert identically under Python's base-16 digit
table. -/
theorem asciiHexVal_pyHexVal {c v : Nat} (h : asciiHexVal c = some v) :
    pyHexVal c = some v := by
  unfold asciiHexVal at h
  split_ifs at h with h1 h2 h3
  · have hd : pyNdVal c = some (c - 0x30) :=
      pyNdVal_ascii (by simp [asciiDigit]; omega)
    simp only [Option.some.injEq] at h
    rw [pyHexVal, hd, h]
  · obtain ⟨hl, hr⟩ := h2
    interval_cases c <;> (simp at h; subst h; decide)
  · obtain ⟨hl, hr⟩ := h3
    interval_cases c <;> (simp at h; subst h; decide)

/-- Decomposition of a successful four-hex-digit conversion. -/
theorem asciiHex4_parts {a b c d n : Nat} (h : asciiHex4 a b c d = some n) :
    ∃ v1 v2 v3 v4, asciiHexVal a = some v1 ∧ asciiHexVal b = some v2 ∧
      asciiHexVal c = some v3 ∧ asciiHexVal d = some v4 ∧
      n = ((v1 * 16 + v2) * 16 + v3) * 16 + v4 := by
  unfold asciiHex4 at h
  rcases ha : asciiHexVal a with _ | v1 <;> rw [ha] at h <;>
    rcases hb : asciiHexVal b with _ | v2 <;> rw [hb] at h <;>
    rcases hc : asciiHexVal c with _ | v3 <;> rw [hc] at h <;>
    rcases hd : asciiHexVal d with _ | v4 <;> rw [hd] at h <;>
    simp at h
  exact ⟨v1, v2, v3, v4, rfl, rfl, rfl, rfl, h.symm⟩

/-- Four ASCII hex digits convert identically under `int(..., base=16)`. -/
theorem asciiHex4_pyHex4 {a b c d n : Nat} (h : asciiHex4 a b c d = some n) :
    pyHex4 a b c d = some n := by
  obtain ⟨v1, v2, v3, v4, ha, hb, hc, hd, rfl⟩ := asciiHex4_parts h
  rw [pyHex4, asciiHexVal_pyHexVal ha, asciiHexVal_pyHexVal hb,
    asciiHexVal_pyHexVal hc, asciiHexVal_pyHexVal hd]

/-- ASCII hex digits pass the source's escape-digit check. -/
theorem hexOk_of_asciiHexVal {c v : Nat} (h : asciiHexVal c = some v) :
    hexOk c = true :=
  hexOk_of_pyHexVal (asciiHexVal_pyHexVal h)

/-- A list whose head is not whitespace is unchanged by whitespace
skipping. -/
theorem skipWs_cons_not_ws {c : Nat} (t : List Nat) (h : isWs4 c = false) :
    skipWs (c :: t) = c :: t := by
  rw [skipWs, List.dropWhile_cons_of_neg (by simp [h])]

/-- Dispatch characters are not whitespace and not delimiters. -/
theorem dispatchChar_props {c : Nat} (h : dispatchChar c = true) :
    isWs4 c = false ∧ c ≠ 0x2C ∧ c ≠ 0x5D ∧ c ≠ 0x7D := by
  simp [dispatchChar, asciiDigit] at h
  refine ⟨by simp [isWs4]; omega, by omega, by omega, by omega⟩


/-- The code's string loop agrees with the reference string grammar without
surrogate combination, at any sufficient fuel. -/
theorem refStr_sim : ∀ (f : Nat) (l cs r : List Nat),
    refStrF false f l = some (cs, r) → strLoop l = .ok (cs, r) := by
  intro f
  induction f with
  | zero => intro l cs r h; simp [refStrF] at h
  | succ f ih =>
    intro l cs r h
    rcases l with _ | ⟨c, rest⟩
    · simp [refStrF] at h
    simp only [refStrF] at h
    rw [strLoop.eq_def]
    simp only []
    by_cases h1 : c < 0x20
    · rw [if_pos h1] at h
      simp at h
    rw [if_neg h1] at h ⊢
    by_cases h2 : c = 0x22
    · rw [if_pos h2] at h ⊢
      simp only [Option.some.injEq, Prod.mk.injEq] at h
      obtain ⟨rfl, rfl⟩ := h
      rfl
    rw [if_neg h2] at h ⊢
    by_cases h3 : c = 0x5C
    · rw [if_pos h3] at h ⊢
      rcases rest with _ | ⟨e, rest2⟩
      · simp at h
      simp only [] at h ⊢
      by_cases he : e = 0x75
      · rw [if_pos he] at h ⊢
        rcases rest2 with _ | ⟨x1, _ | ⟨x2, _ | ⟨x3, _ | ⟨x4, rest3⟩⟩⟩⟩ <;>
          simp only [] at h ⊢
        · simp at h
        · simp at h
        · simp at h
        · simp at h
        rcases hx : asciiHex4 x1 x2 x3 x4 with _ | n
        · rw [hx] at h
          simp at h
        rw [hx] at h
        simp only [] at h
        have hno : ¬((false : Bool) = true ∧ 0xD800 ≤ n ∧ n ≤ 0xDBFF) := by simp
        rw [if_neg hno] at h
        rcases hrec : refStrF false f rest3 with _ | ⟨cs3, r3⟩
        · rw [hrec] at h
          simp at h
        rw [hrec] at h
        simp only [Option.map_some', Option.some.injEq, Prod.mk.injEq] at h
        obtain ⟨rfl, rfl⟩ := h
        obtain ⟨v1, v2, v3, v4, ha, hb, hc, hd, rfl⟩ := asciiHex4_parts hx
        rw [if_pos (by simp [hexOk_of_asciiHexVal ha, hexOk_of_asciiHexVal hb,
          hexOk_of_asciiHexVal hc, hexOk_of_asciiHexVal hd])]
        rw [asciiHex4_pyHex4 hx]
        simp only []
        rw [ih rest3 cs3 r3 hrec]
        rfl
      · rw [if_neg he] at h ⊢
        rcases hesc : escMap e with _ | c2
        · rw [hesc] at h
          simp at h
        rw [hesc] at h
        simp only [] at h ⊢
        rcases hrec : refStrF false f rest2 with _ | ⟨cs2, r2⟩
        · rw [hrec] at h
          simp at h
        rw [hrec] at h
        simp only [Option.map_some', Option.some.injEq, Prod.mk.injEq] at h
        obtain ⟨rfl, rfl⟩ := h
        rw [ih rest2 cs2 r2 hrec]
        rfl
    · rw [if_neg h3] at h ⊢
      rcases hrec : refStrF false f rest with _ | ⟨cs2, r2⟩
      · rw [hrec] at h
        simp at h
      rw [hrec] at h
      simp only [Option.map_some', Option.some.injEq, Prod.mk.injEq] at h
      obtain ⟨rfl, rfl⟩ := h
      rw [ih rest cs2 r2 hrec]
      rfl

/-- A successful reference string body consumes at least the closing
quote. -/
theorem refStrF_len : ∀ (f : Nat) (l cs r : List Nat),
    refStrF false f l = some (cs, r) → r.length < l.length := by
  intro f
  induction f with
  | zero => intro l cs r h; simp [refStrF] at h
  | succ f ih =>
    intro l cs r h
    rcases l with _ | ⟨c, rest⟩
    · simp [refStrF] at h
    simp only [refStrF] at h
    by_cases h1 : c < 0x20
    · rw [if_pos h1] at h
      simp at h
    rw [if_neg h1] at h
    by_cases h2 : c = 0x22
    · rw [if_pos h2] at h
      simp only [Option.some.injEq, Prod.mk.injEq] at h
      obtain ⟨rfl, rfl⟩ := h
      simp
    rw [if_neg h2] at h
    by_cases h3 : c = 0x5C
    · rw [if_pos h3] at h
      rcases rest with _ | ⟨e, rest2⟩
      · simp at h
      simp only [] at h
      by_cases he : e = 0x75
      · rw [if_pos he] at h
        rcases rest2 with _ | ⟨x1, _ | ⟨x2, _ | ⟨x3, _ | ⟨x4, rest3⟩⟩⟩⟩ <;>
          simp only [] at h
        · simp at h
        · simp at h
        · simp at h
        · simp at h
        rcases hx : asciiHex4 x1 x2 x3 x4 with _ | n
        · rw [hx] at h
          simp at h
        rw [hx] at h
        simp only [] at h
        have hno : ¬((false : Bool) = true ∧ 0xD800 ≤ n ∧ n ≤ 0xDBFF) := by simp
        rw [if_neg hno] at h
        rcases hrec : refStrF false f rest3 with _ | ⟨cs3, r3⟩
        · rw [hrec] at h
          simp at h
        rw [hrec] at h
        simp only [Option.map_some', Option.some.injEq, Prod.mk.injEq] at h
        obtain ⟨rfl, rfl⟩ := h
        have hlen := ih rest3 cs3 r3 hrec
        simp only [List.length_cons]
        omega
      · rw [if_neg he] at h
        rcases hesc : escMap e with _ | c2
        · rw [hesc] at h
          simp at h
        rw [hesc] at h
        simp only [] at h
        rcases hrec : refStrF false f rest2 with _ | ⟨cs2, r2⟩
        · rw [hrec] at h
          simp at h
        rw [hrec] at h
        simp only [Option.map_some', Option.some.injEq, Prod.mk.injEq] at h
        obtain ⟨rfl, rfl⟩ := h
        have hlen := ih rest2 cs2 r2 hrec
        simp only [List.length_cons]
        omega
    · rw [if_neg h3] at h
      rcases hrec : refStrF false f rest with _ | ⟨cs2, r2⟩
      · rw [hrec] at h
        simp at h
      rw [hrec] at h
      simp only [Option.map_some', Option.some.injEq, Prod.mk.injEq] at h
      obtain ⟨rfl, rfl⟩ := h
      have hlen := ih rest cs2 r2 hrec
      simp only [List.length_cons]
      omega

/-- Wrapper of `refStr_sim` at the fuel `refStrLoop` supplies. -/
theorem refStrLoop_sim {l cs r : List Nat}
    (h : refStrLoop false l = some (cs, r)) : strLoop l = .ok (cs, r) :=
  refStr_sim _ l cs r h

/-- Wrapper of `refStrF_len` at the fuel `refStrLoop` supplies. -/
theorem refStrLoop_len {l cs r : List Nat}
    (h : refStrLoop false l = some (cs, r)) : r.length < l.length :=
  refStrF_len _ l cs r h

/-- A successful reference number consumes at least one character. -/
theorem refNum_len {l : List Nat} {v : JVal} {r : List Nat}
    (h : refNum l = some (v, r)) : r.length < l.length := by
  rw [refNum] at h
  by_cases hm : l.head? = some 0x2D
  · obtain ⟨lt, rfl⟩ : ∃ lt, l = 0x2D :: lt := by
      rcases l with _ | ⟨c0, lt⟩
      · simp at hm
      · simp at hm
        exact ⟨lt, by rw [hm]⟩
    simp only [List.head?_cons, Option.some.injEq, if_true, if_pos,
      List.drop_succ_cons, List.drop_zero] at h
    rcases htd : takeDigits lt with ⟨ds, r1⟩
    have hspec := takeDigits_spec lt
    rw [htd] at hspec h
    simp only [] at h hspec
    obtain ⟨hsplit, hdsdig, hr1h⟩ := hspec
    split_ifs at h with h1 h2 h3 h4
    · obtain ⟨r1t, rfl⟩ : ∃ t, r1 = 0x2E :: t := by
        rcases r1 with _ | ⟨c, t⟩
        · simp at h3
        · simp at h3
          exact ⟨t, by rw [h3]⟩
      simp only [List.drop_succ_cons, List.drop_zero] at h
      rcases hfd : takeDigits r1t with ⟨fs, r3⟩
      have hspec2 := takeDigits_spec r1t
      rw [hfd] at hspec2 h
      simp only [] at h hspec2
      obtain ⟨hsplit2, hfsdig, hr3h⟩ := hspec2
      simp only [Option.some.injEq, Prod.mk.injEq] at h
      obtain ⟨rfl, rfl⟩ := h
      rw [hsplit, hsplit2]
      simp [List.length_append]
      omega
    · simp only [Option.some.injEq, Prod.mk.injEq] at h
      obtain ⟨rfl, rfl⟩ := h
      rw [hsplit]
      simp [List.length_append]
      omega
  · rw [if_neg hm] at h
    rcases htd : takeDigits l with ⟨ds, r1⟩
    have hspec := takeDigits_spec l
    rw [htd] at hspec h
    simp only [] at h hspec
    obtain ⟨hsplit, hdsdig, hr1h⟩ := hspec
    split_ifs at h with h1 h2 h3 h4
    · rcases ds with _ | ⟨d0, dt⟩
      · exact absurd rfl h1
      obtain ⟨r1t, rfl⟩ : ∃ t, r1 = 0x2E :: t := by
        rcases r1 with _ | ⟨c, t⟩
        · simp at h3
        · simp at h3
          exact ⟨t, by rw [h3]⟩
      simp only [List.drop_succ_cons, List.drop_zero] at h
      rcases hfd : takeDigits r1t with ⟨fs, r3⟩
      have hspec2 := takeDigits_spec r1t
      rw [hfd] at hspec2 h
      simp only [] at h hspec2
      obtain ⟨hsplit2, hfsdig, hr3h⟩ := hspec2
      simp only [Option.some.injEq, Prod.mk.injEq] at h
      obtain ⟨rfl, rfl⟩ := h
      rw [hsplit, hsplit2]
      simp [List.length_append]
      omega
    · rcases ds with _ | ⟨d0, dt⟩
      · exact absurd rfl h1
      simp only [Option.some.injEq, Prod.mk.injEq] at h
      obtain ⟨rfl, rfl⟩ := h
      rw [hsplit]
      simp [List.length_append]
      omega

/-- A successful reference literal consumes four or five characters. -/
theorem refLit_len {l : List Nat} {v : JVal} {r : List Nat}
    (h : refLit l = some (v, r)) : r.length < l.length := by
  unfold refLit at h
  split_ifs at h with h1 h2 h3
  · obtain ⟨t, rfl⟩ := List.isPrefixOf_iff_prefix.mp h1
    simp only [Option.some.injEq, Prod.mk.injEq] at h
    obtain ⟨rfl, rfl⟩ := h
    simp [List.length_append, pyStr]
    omega
  · obtain ⟨t, rfl⟩ := List.isPrefixOf_iff_prefix.mp h2
    simp only [Option.some.injEq, Prod.mk.injEq] at h
    obtain ⟨rfl, rfl⟩ := h
    simp [List.length_append, pyStr]
    omega
  · obtain ⟨t, rfl⟩ := List.isPrefixOf_iff_prefix.mp h3
    simp only [Option.some.injEq, Prod.mk.injEq] at h
    obtain ⟨rfl, rfl⟩ := h
    simp [List.length_append, pyStr]
    omega

/-- A successful reference value starts at a dispatch character. -/
theorem refOne_head {cb : Bool} {f : Nat} {l : List Nat}
    {p : JVal × List Nat} (h : refOne cb f l = some (some p)) :
    ∃ c t, l = c :: t ∧ dispatchChar c = true := by
  rcases f with _ | f
  · simp [refOne] at h
  rcases l with _ | ⟨c, t⟩
  · simp [refOne] at h
  refine ⟨c, t, rfl, ?_⟩
  by_cases h1 : c = 0x7B
  · simp [dispatchChar, h1]
  by_cases h2 : c = 0x5B
  · simp [dispatchChar, h2]
  by_cases h3 : c = 0x22
  · simp [dispatchChar, h3]
  by_cases h4 : c = 0x74 ∨ c = 0x66 ∨ c = 0x6E
  · rcases h4 with h4 | h4 | h4 <;> simp [dispatchChar, h4]
  by_cases h5 : c = 0x2D ∨ asciiDigit c
  · rcases h5 with h5 | h5 <;> simp [dispatchChar, h5]
  exfalso
  rw [refOne] at h
  simp only [List.head?_cons] at h
  rw [if_neg h1, if_neg h2, if_neg h3, if_neg h4, if_neg h5] at h
  simp at h

/-- The object loop only depends on its input up to leading whitespace. -/
theorem objLoop_skip (f : Nat) (acc : List (List Nat × JVal)) (x : List Nat) :
    objLoop (Nat.succ f) acc (skipWs x) = objLoop (Nat.succ f) acc x := by
  simp only [objLoop, skipWs_idem]

/-- The array loop only depends on its input up to leading whitespace. -/
theorem arrLoop_skip (f : Nat) (acc : List JVal) (x : List Nat) :
    arrLoop (Nat.succ f) acc (skipWs x) = arrLoop (Nat.succ f) acc x := by
  simp only [arrLoop, skipWs_idem]

/-- A successful reference parse consumes at least one character, at every
recursion level. -/
theorem ref_len : ∀ f : Nat,
    (∀ (l : List Nat) (v : JVal) (r : List Nat),
      refOne false f l = some (some (v, r)) → r.length < l.length) ∧
    (∀ (acc : List (List Nat × JVal)) (l : List Nat) (v : JVal) (r : List Nat),
      refPairs false f acc l = some (some (v, r)) → r.length < l.length) ∧
    (∀ (acc : List JVal) (l : List Nat) (v : JVal) (r : List Nat),
      refElems false f acc l = some (some (v, r)) → r.length < l.length) := by
  intro f
  induction f with
  | zero =>
    refine ⟨?_, ?_, ?_⟩
    · intro l v r h; simp [refOne] at h
    · intro acc l v r h; simp [refPairs] at h
    · intro acc l v r h; simp [refElems] at h
  | succ f ih =>
    obtain ⟨ih1, ih2, ih3⟩ := ih
    refine ⟨?_, ?_, ?_⟩
    · -- refOne
      intro l v r h
      rcases l with _ | ⟨c, t⟩
      · simp [refOne] at h
      rw [refOne] at h
      simp only [List.head?_cons, List.drop_succ_cons, List.drop_zero] at h
      by_cases h1 : c = 0x7B
      · rw [if_pos h1] at h
        by_cases hh : (skipWs t).head? = some 0x7D
        · rw [if_pos hh] at h
          simp only [Option.some.injEq, Option.some.injEq, Prod.mk.injEq] at h
          obtain ⟨rfl, rfl⟩ := h
          have a1 := skipWs_length_le t
          simp only [List.length_drop, List.length_cons]
          omega
        · rw [if_neg hh] at h
          have a1 := ih2 [] (skipWs t) v r h
          have a2 := skipWs_length_le t
          simp only [List.length_cons]
          omega
      rw [if_neg h1] at h
      by_cases h2 : c = 0x5B
      · rw [if_pos h2] at h
        by_cases hh : (skipWs t).head? = some 0x5D
        · rw [if_pos hh] at h
          simp only [Option.some.injEq, Option.some.injEq, Prod.mk.injEq] at h
          obtain ⟨rfl, rfl⟩ := h
          have a1 := skipWs_length_le t
          simp only [List.length_drop, List.length_cons]
          omega
        · rw [if_neg hh] at h
          have a1 := ih3 [] (skipWs t) v r h
          have a2 := skipWs_length_le t
          simp only [List.length_cons]
          omega
      rw [if_neg h2] at h
      by_cases h3 : c = 0x22
      · rw [if_pos h3] at h
        rcases hs : refStrLoop false t with _ | ⟨cs, r2⟩
        · rw [hs] at h
          simp at h
        rw [hs] at h
        simp only [Option.map_some', Option.some.injEq, Option.some.injEq,
          Prod.mk.injEq] at h
        obtain ⟨rfl, rfl⟩ := h
        have a1 := refStrLoop_len hs
        simp only [List.length_cons]
        omega
      rw [if_neg h3] at h
      by_cases h4 : c = 0x74 ∨ c = 0x66 ∨ c = 0x6E
      · rw [if_pos h4] at h
        simp only [Option.some.injEq] at h
        exact refLit_len h
      rw [if_neg h4] at h
      by_cases h5 : c = 0x2D ∨ asciiDigit c
      · rw [if_pos h5] at h
        simp only [Option.some.injEq] at h
        exact refNum_len h
      rw [if_neg h5] at h
      simp at h
    · -- refPairs
      intro acc l v r h
      rw [refPairs] at h
      by_cases hq : l.head? = some 0x22
      swap
      · rw [if_neg hq] at h
        simp at h
      rw [if_pos hq] at h
      obtain ⟨t, rfl⟩ : ∃ t, l = 0x22 :: t := by
        rcases l with _ | ⟨c0, t⟩
        · simp at hq
        · simp at hq
          exact ⟨t, by rw [hq]⟩
      simp only [List.drop_succ_cons, List.drop_zero] at h
      rcases hs : refStrLoop false t with _ | ⟨key, l2⟩
      · rw [hs] at h
        simp at h
      rw [hs] at h
      simp only [] at h
      by_cases hcol : (skipWs l2).head? = some 0x3A
      swap
      · rw [if_neg hcol] at h
        simp at h
      rw [if_pos hcol] at h
      rcases hv : refOne false f (skipWs ((skipWs l2).drop 1)) with _ | hv2
      · rw [hv] at h
        simp at h
      rcases hv2 with _ | ⟨v1, l5⟩
      · rw [hv] at h
        simp at h
      rw [hv] at h
      simp only [] at h
      have b1 := refStrLoop_len hs
      have b2 := ih1 _ v1 l5 hv
      have b3 := skipWs_length_le ((skipWs l2).drop 1)
      have b4 := skipWs_length_le l2
      have b5 := skipWs_length_le l5
      simp only [List.length_drop] at b2 b3
      by_cases hc1 : (skipWs l5).head? = some 0x2C
      · rw [if_pos hc1] at h
        have c1 := ih2 _ _ v r h
        have c2 := skipWs_length_le ((skipWs l5).drop 1)
        simp only [List.length_drop, List.length_cons] at *
        omega
      rw [if_neg hc1] at h
      by_cases hc2 : (skipWs l5).head? = some 0x7D
      · rw [if_pos hc2] at h
        simp only [Option.some.injEq, Option.some.injEq, Prod.mk.injEq] at h
        obtain ⟨rfl, rfl⟩ := h
        simp only [List.length_drop, List.length_cons] at *
        omega
      rw [if_neg hc2] at h
      simp at h
    · -- refElems
      intro acc l v r h
      rw [refElems] at h
      rcases hv : refOne false f l with _ | hv2
      · rw [hv] at h
        simp at h
      rcases hv2 with _ | ⟨e, l2⟩
      · rw [hv] at h
        simp at h
      rw [hv] at h
      simp only [] at h
      have b1 := ih1 l e l2 hv
      have b2 := skipWs_length_le l2
      by_cases hc1 : (skipWs l2).head? = some 0x2C
      · rw [if_pos hc1] at h
        have c1 := ih3 _ _ v r h
        have c2 := skipWs_length_le ((skipWs l2).drop 1)
        simp only [List.length_drop] at *
        omega
      rw [if_neg hc1] at h
      by_cases hc2 : (skipWs l2).head? = some 0x5D
      · rw [if_pos hc2] at h
        simp only [Option.some.injEq, Option.some.injEq, Prod.mk.injEq] at h
        obtain ⟨rfl, rfl⟩ := h
        simp only [List.length_drop] at *
        omega
      rw [if_neg hc2] at h
      simp at h

/-- A successful reference member list starts at a quote. -/
theorem refPairs_head {cb : Bool} {f : Nat} {acc : List (List Nat × JVal)}
    {l : List Nat} {p : JVal × List Nat}
    (h : refPairs cb f acc l = some (some p)) : l.head? = some 0x22 := by
  rcases f with _ | f
  · simp [refPairs] at h
  rw [refPairs] at h
  by_cases hq : l.head? = some 0x22
  · exact hq
  · rw [if_neg hq] at h
    simp at h

/-- A successful reference element list starts at a dispatch character. -/
theorem refElems_head {cb : Bool} {f : Nat} {acc : List JVal}
    {l : List Nat} {p : JVal × List Nat}
    (h : refElems cb f acc l = some (some p)) :
    ∃ c t, l = c :: t ∧ dispatchChar c = true := by
  rcases f with _ | f
  · simp [refElems] at h
  rw [refElems] at h
  rcases hv : refOne cb f l with _ | hv2
  · rw [hv] at h
    simp at h
  rcases hv2 with _ | q
  · rw [hv] at h
    simp at h
  exact refOne_head hv


/-- Main simulation: every value the reference grammar (without surrogate
combination) accepts is parsed identically by the code's parsers, at any
fuel exceeding the number of consumed characters. -/
theorem ref_sim : ∀ f : Nat,
    (∀ (l : List Nat) (v : JVal) (r : List Nat) (g : Nat),
      refOne false f l = some (some (v, r)) → followOk r = true →
      l.length - r.length < g → parseOne g l = some (.ok (v, r))) ∧
    (∀ (acc : List (List Nat × JVal)) (l : List Nat) (v : JVal) (r : List Nat)
        (g : Nat),
      refPairs false f acc l = some (some (v, r)) →
      l.length - r.length < g → objLoop g acc l = some (.ok (v, r))) ∧
    (∀ (acc : List JVal) (l : List Nat) (v : JVal) (r : List Nat) (g : Nat),
      refElems false f acc l = some (some (v, r)) →
      l.length - r.length < g → arrLoop g acc l = some (.ok (v, r))) := by
  intro f
  induction f with
  | zero =>
    refine ⟨?_, ?_, ?_⟩
    · intro l v r g h hf hg; simp [refOne] at h
    · intro acc l v r g h hg; simp [refPairs] at h
    · intro acc l v r g h hg; simp [refElems] at h
  | succ f ih =>
    obtain ⟨ih1, ih2, ih3⟩ := ih
    refine ⟨?_, ?_, ?_⟩
    · -- value dispatcher
      intro l v r g h hf hg
      have hrl := (ref_len (Nat.succ f)).1 l v r h
      rcases g with _ | g
      · omega
      rcases l with _ | ⟨c, t⟩
      · simp [refOne] at h
      have hlc : (c :: t).length = t.length + 1 := rfl
      rw [refOne] at h
      rw [parseOne]
      simp only [List.head?_cons, List.drop_succ_cons, List.drop_zero] at h ⊢
      by_cases h1 : c = 0x7B
      · rw [if_pos h1] at h ⊢
        have a1 := skipWs_length_le t
        by_cases hh : (skipWs t).head? = some 0x7D
        · rw [if_pos hh] at h
          simp only [Option.some.injEq, Prod.mk.injEq] at h
          obtain ⟨rfl, rfl⟩ := h
          have a2 : (skipWs t).length ≠ 0 := by
            intro h0
            rw [List.head?_eq_none_iff.mpr (List.length_eq_zero.mp h0)] at hh
            cases hh
          have a3 : ((skipWs t).drop 1).length = (skipWs t).length - 1 := by
            simp
          rcases g with _ | g
          · omega
          rw [objLoop]
          rw [hh]
          simp
        · rw [if_neg hh] at h
          have a2 := (ref_len f).2.1 [] (skipWs t) v r h
          rcases g with _ | g
          · omega
          rw [← objLoop_skip g [] t]
          exact ih2 [] (skipWs t) v r (Nat.succ g) h (by omega)
      rw [if_neg h1] at h ⊢
      by_cases h2 : c = 0x5B
      · rw [if_pos h2] at h ⊢
        have a1 := skipWs_length_le t
        by_cases hh : (skipWs t).head? = some 0x5D
        · rw [if_pos hh] at h
          simp only [Option.some.injEq, Prod.mk.injEq] at h
          obtain ⟨rfl, rfl⟩ := h
          have a2 : (skipWs t).length ≠ 0 := by
            intro h0
            rw [List.head?_eq_none_iff.mpr (List.length_eq_zero.mp h0)] at hh
            cases hh
          have a3 : ((skipWs t).drop 1).length = (skipWs t).length - 1 := by
            simp
          rcases g with _ | g
          · omega
          rw [arrLoop]
          rw [hh]
          simp
        · rw [if_neg hh] at h
          have a2 := (ref_len f).2.2 [] (skipWs t) v r h
          rcases g with _ | g
          · omega
          rw [← arrLoop_skip g [] t]
          exact ih3 [] (skipWs t) v r (Nat.succ g) h (by omega)
      rw [if_neg h2] at h ⊢
      by_cases h3 : c = 0x22
      · rw [if_pos h3] at h ⊢
        rcases hs : refStrLoop false t with _ | ⟨cs, r2⟩
        · rw [hs] at h
          simp at h
        rw [hs] at h
        simp only [Option.map_some', Option.some.injEq, Prod.mk.injEq] at h
        obtain ⟨rfl, rfl⟩ := h
        have hstr := refStrLoop_sim hs
        have hps : parseStringFn (c :: t) = .ok (cs, r2) := by
          simp [parseStringFn, hstr]
        rw [hps]
        rfl
      rw [if_neg h3] at h ⊢
      by_cases h4 : c = 0x74 ∨ c = 0x66 ∨ c = 0x6E
      · rw [if_pos h4] at h ⊢
        simp only [Option.some.injEq] at h
        rw [refLit_sim h hf]
      rw [if_neg h4] at h ⊢
      by_cases h5 : c = 0x2D ∨ asciiDigit c
      · rw [if_pos h5] at h
        simp only [Option.some.injEq] at h
        rw [if_pos (h5.imp id asciiDigit_pyIsDigit)]
        rw [refNum_sim h hf]
      rw [if_neg h5] at h
      simp at h
    · -- object members
      intro acc l v r g h hg
      have hrl := (ref_len (Nat.succ f)).2.1 acc l v r h
      rw [refPairs] at h
      by_cases hq : l.head? = some 0x22
      swap
      · rw [if_neg hq] at h
        simp at h
      rw [if_pos hq] at h
      obtain ⟨t, rfl⟩ : ∃ t, l = 0x22 :: t := by
        rcases l with _ | ⟨c0, t⟩
        · simp at hq
        · simp at hq
          exact ⟨t, by rw [hq]⟩
      have hlc : ((0x22 : Nat) :: t).length = t.length + 1 := rfl
      simp only [List.drop_succ_cons, List.drop_zero] at h
      rcases hs : refStrLoop false t with _ | ⟨key, l2⟩
      · rw [hs] at h
        simp at h
      rw [hs] at h
      simp only [] at h
      by_cases hcol : (skipWs l2).head? = some 0x3A
      swap
      · rw [if_neg hcol] at h
        simp at h
      rw [if_pos hcol] at h
      rcases hv : refOne false f (skipWs ((skipWs l2).drop 1)) with _ | hv2
      · rw [hv] at h
        simp at h
      rcases hv2 with _ | ⟨v1, l5⟩
      · rw [hv] at h
        simp at h
      rw [hv] at h
      simp only [] at h
      have b1 := refStrLoop_len hs
      have b2 := (ref_len f).1 _ v1 l5 hv
      have b3 := skipWs_length_le ((skipWs l2).drop 1)
      have b4 := skipWs_length_le l2
      have b5 := skipWs_length_le l5
      have b6 : ((skipWs l2).drop 1).length = (skipWs l2).length - 1 := by simp
      have b7 : (skipWs l2).length ≠ 0 := by
        intro h0
        rw [List.head?_eq_none_iff.mpr (List.length_eq_zero.mp h0)] at hcol
        cases hcol
      have b8 := skipWs_length_le ((skipWs l5).drop 1)
      have b9 : ((skipWs l5).drop 1).length = (skipWs l5).length - 1 := by simp
      rcases g with _ | g
      · omega
      rw [objLoop]
      rw [skipWs_cons_not_ws t (by decide)]
      simp only [List.head?_cons]
      rw [if_neg (by decide : ¬((0x22 : Nat) = 0x7D))]
      rw [if_neg (by simp : ¬((0x22 : Nat) ≠ 0x22))]
      have hstr := refStrLoop_sim hs
      have hps : parseStringFn (0x22 :: t) = .ok (key, l2) := by
        simp [parseStringFn, hstr]
      rw [hps]
      simp only []
      rw [if_pos hcol]
      by_cases hc1 : (skipWs l5).head? = some 0x2C
      · rw [if_pos hc1] at h
        have hf5 : followOk l5 = true := followOk_of_skip hc1 (by decide)
        have b10 : (skipWs l5).length ≠ 0 := by
          intro h0
          rw [List.head?_eq_none_iff.mpr (List.length_eq_zero.mp h0)] at hc1
          cases hc1
        have hrl2 := (ref_len f).2.1 _ _ v r h
        have hone := ih1 _ v1 l5 g hv hf5 (by omega)
        rw [hone]
        simp only []
        rw [if_pos hc1]
        have hph := refPairs_head h
        have hne1 : ¬(skipWs ((skipWs l5).drop 1)).head? = some 0x2C := by
          rw [hph]
          simp
        have hne2 : ¬(skipWs ((skipWs l5).drop 1)).head? = some 0x7D := by
          rw [hph]
          simp
        rw [if_neg hne1, if_neg hne2]
        exact ih2 _ _ v r g h (by omega)
      rw [if_neg hc1] at h
      by_cases hc2 : (skipWs l5).head? = some 0x7D
      · rw [if_pos hc2] at h
        simp only [Option.some.injEq, Prod.mk.injEq] at h
        obtain ⟨rfl, rfl⟩ := h
        have hf5 : followOk l5 = true := followOk_of_skip hc2 (by decide)
        have b10 : (skipWs l5).length ≠ 0 := by
          intro h0
          rw [List.head?_eq_none_iff.mpr (List.length_eq_zero.mp h0)] at hc2
          cases hc2
        have b11 : ((skipWs l5).drop 1).length = (skipWs l5).length - 1 := by
          simp
        have hone := ih1 _ v1 l5 g hv hf5 (by omega)
        rw [hone]
        simp only []
        rw [if_neg hc1, if_pos hc2]
        rcases g with _ | g
        · omega
        rw [objLoop]
        rw [skipWs_idem]
        rw [hc2]
        simp
      rw [if_neg hc2] at h
      simp at h
    · -- array elements
      intro acc l v r g h hg
      have hrl := (ref_len (Nat.succ f)).2.2 acc l v r h
      rw [refElems] at h
      rcases hv : refOne false f l with _ | hv2
      · rw [hv] at h
        simp at h
      rcases hv2 with _ | ⟨e, l2⟩
      · rw [hv] at h
        simp at h
      rw [hv] at h
      simp only [] at h
      obtain ⟨c, t, rfl, hdc⟩ := refOne_head hv
      have hlc : (c :: t).length = t.length + 1 := rfl
      have hprops := dispatchChar_props hdc
      have hskl : skipWs (c :: t) = c :: t := skipWs_cons_not_ws t hprops.1
      have b1 := (ref_len f).1 _ e l2 hv
      have b2 := skipWs_length_le l2
      have b3 := skipWs_length_le ((skipWs l2).drop 1)
      have b4 : ((skipWs l2).drop 1).length = (skipWs l2).length - 1 := by simp
      rcases g with _ | g
      · omega
      rw [arrLoop]
      rw [hskl]
      simp only [List.head?_cons]
      rw [if_neg hprops.2.2.1]
      by_cases hc1 : (skipWs l2).head? = some 0x2C
      · rw [if_pos hc1] at h
        have hf2 : followOk l2 = true := followOk_of_skip hc1 (by decide)
        have b5 : (skipWs l2).length ≠ 0 := by
          intro h0
          rw [List.head?_eq_none_iff.mpr (List.length_eq_zero.mp h0)] at hc1
          cases hc1
        have hrl2 := (ref_len f).2.2 _ _ v r h
        have hone := ih1 _ e l2 g hv hf2 (by omega)
        rw [hone]
        simp only []
        rw [if_pos hc1]
        obtain ⟨c2, t2, hl4, hdc2⟩ := refElems_head h
        have hprops2 := dispatchChar_props hdc2
        have hne1 : ¬(skipWs ((skipWs l2).drop 1)).head? = some 0x2C := by
          rw [hl4]
          simp only [List.head?_cons, Option.some.injEq]
          exact hprops2.2.1
        have hne2 : ¬(skipWs ((skipWs l2).drop 1)).head? = some 0x5D := by
          rw [hl4]
          simp only [List.head?_cons, Option.some.injEq]
          exact hprops2.2.2.1
        rw [if_neg hne1, if_neg hne2]
        exact ih3 _ _ v r g h (by omega)
      rw [if_neg hc1] at h
      by_cases hc2 : (skipWs l2).head? = some 0x5D
      · rw [if_pos hc2] at h
        simp only [Option.some.injEq, Prod.mk.injEq] at h
        obtain ⟨rfl, rfl⟩ := h
        have hf2 : followOk l2 = true := followOk_of_skip hc2 (by decide)
        have b5 : (skipWs l2).length ≠ 0 := by
          intro h0
          rw [List.head?_eq_none_iff.mpr (List.length_eq_zero.mp h0)] at hc2
          cases hc2
        have hone := ih1 _ e l2 g hv hf2 (by omega)
        rw [hone]
        simp only []
        rw [if_neg hc1, if_pos hc2]
        rcases g with _ | g
        · omega
        rw [arrLoop]
        rw [skipWs_idem]
        rw [hc2]
        simp
      rw [if_neg hc2] at h
      simp at h

/-- C1 (amended).  On every input accepted by the spec §6 restricted
grammar, `decode` agrees with the reference decoder *without* surrogate-pair
combination: whenever the reference (with `combine` unset) accepts the input
with value `v`, `decode` returns exactly `v`.  The claim as stated — equality
with the trusted reference, which combines surrogate pairs — fails on
`"𝄞"` (see the counterexample). -/
theorem c1_reference_equivalence (l : List Nat) (v : JVal)
    (h : refDecode false l = some v) : decode l = some (.ok v) := by
  rw [refDecode] at h
  rcases ho : refOne false (l.length + 1) (skipWs l) with _ | hv2
  · rw [ho] at h
    simp at h
  rcases hv2 with _ | ⟨v0, rest⟩
  · rw [ho] at h
    simp at h
  rw [ho] at h
  simp only [] at h
  by_cases hz : skipWs rest = []
  swap
  · rw [if_neg hz] at h
    cases h
  rw [if_pos hz] at h
  simp only [Option.some.injEq] at h
  obtain rfl := h
  have hfol := followOk_of_skip_nil hz
  have hsk := skipWs_length_le l
  have hps := (ref_sim (l.length + 1)).1 (skipWs l) v0 rest (l.length + 1) ho
    hfol (by omega)
  rw [decode]
  rw [hps]
  simp only []
  rw [hz]
  rfl

/-- C1, counterexample to the claim as stated: the §6-grammar input
`"𝄞"` (an escaped surrogate pair) decodes under the trusted
reference to the single combined code point U+1D11E, but under the code to
the two separate code points U+D834, U+DD1E — the results differ. -/
theorem c1_surrogate_counterexample :
    refDecode true (pyStr "\"\\uD834\\uDD1E\"") = some (.str [0x1D11E]) ∧
    decode (pyStr "\"\\uD834\\uDD1E\"") = some (.ok (.str [0xD834, 0xDD1E])) ∧
    JVal.str [0x1D11E] ≠ JVal.str [0xD834, 0xDD1E] :=
  ⟨rfl, rfl, by simp⟩

theorem c1_reference_equivalence_witness :
    refDecode false (pyStr " [1, \"a\", true, \x7b\"k\": 2.5\x7d] ") =
      some (.arr [.int 1, .str [0x61], .bool true,
        .obj [(pyStr "k", .flt (pyStr "2.5"))]]) ∧
    decode (pyStr " [1, \"a\", true, \x7b\"k\": 2.5\x7d] ") =
      some (.ok (.arr [.int 1, .str [0x61], .bool true,
        .obj [(pyStr "k", .flt (pyStr "2.5"))]])) :=
  ⟨rfl, c1_reference_equivalence _ _ rfl⟩
